import Mathlib

/-!
# estesp/instrumentation: the io.ReadAll call rewriter (src/main.go)

A shallow embedding of the syntax-tree pass of `src/main.go` and the proofs of
the properties its specification states.

Conventions of the embedding.

* A Go `string` is a Lean `String` and a Go `[]byte` is a list of `Char`; every
  `Char` stands for one byte, so `len` is the number of characters and
  `string(b)` is `String.mk b`.
* `token.Pos`, line and column numbers are Go `int`s and are modelled by `Int`.
* The syntax tree keeps the three node types the two visitors look at
  (`*ast.Ident`, `*ast.SelectorExpr`, `*ast.CallExpr`) with all their fields;
  every other node type is an `other` node carrying its type tag, its position
  span and the list of its non-nil children in the order `ast.Walk` visits them.
* The visitors mutate the tree in place; here a walk returns the tree after the
  walk together with the visitor state.
* A Go run-time panic is the result `none`.
-/

namespace Instrumentation

/-! ## go/token -/

/-- The type token.Position: a source position with file, byte offset, line and column. -/
structure Position where
  Filename : String
  Offset : Int
  Line : Int
  Column : Int

/-- The method Position.IsValid: a position is valid when its line is positive. -/
def Position.IsValid (pos : Position) : Bool := decide (pos.Line > 0)

/-- The method Position.String of go/token: `file:line:col`, with the parts that
are missing left out, and `-` for the empty result. `strconv.Itoa` and `%d` print
an `int` in decimal, which is `toString` on `Int`. -/
def Position.String (pos : Position) : String :=
  let s := pos.Filename
  let s :=
    if pos.IsValid then
      let s := if s ≠ "" then s ++ ":" else s
      let s := s ++ toString pos.Line
      if pos.Column ≠ 0 then s ++ (":" ++ toString pos.Column) else s
    else s
  if s = "" then "-" else s

/-- The type token.FileSet, seen through the one method the program calls on it:
`fset.Position(p)`, the line table lookup of go/token. -/
structure FileSet where
  Position : Int → Position

/-! ## Byte slices -/

/-- A Go `[]byte`: the `len` bytes of the slice (`elems`) and the rest of its
backing array up to `cap` (`spare`). -/
structure ByteSlice where
  elems : List Char
  spare : List Char

/-- The builtin len of a slice. -/
def ByteSlice.len (b : ByteSlice) : Int := b.elems.length

/-- The builtin cap of a slice. -/
def ByteSlice.cap (b : ByteSlice) : Int := b.elems.length + b.spare.length

/-- The slice expression `b[lo:hi]` of Go: it panics (`none`) unless
`0 <= lo <= hi <= cap(b)`, and otherwise yields the bytes of the backing array
from index `lo` up to, not including, index `hi`. -/
def ByteSlice.slice (b : ByteSlice) (lo hi : Int) : Option (List Char) :=
  if 0 ≤ lo ∧ lo ≤ hi ∧ hi ≤ b.cap then
    some (((b.elems ++ b.spare).drop lo.toNat).take (hi - lo).toNat)
  else none

/-- The file system as `os.ReadFile` sees it: the bytes of a file, or `none`
when the read returns an error. -/
abbrev FileSystem := String → Option ByteSlice

/-! ## go/ast -/

/-- The type ast.ObjKind: what a resolved identifier denotes. -/
inductive ObjKind where
  | Bad | Pkg | Con | Typ | Var | Fun | Lbl
deriving DecidableEq, Repr

/-- The type ast.Ident. `Obj` is the object the parser resolved the identifier
to inside the file (only its kind is kept); it is `none` for an identifier the
file does not declare, such as the name of an imported package. -/
structure Ident where
  NamePos : Int
  Name : String
  Obj : Option ObjKind
deriving DecidableEq, Repr

/-- The constructor ast.NewIdent: an identifier without position. -/
def NewIdent (name : String) : Ident := { NamePos := 0, Name := name, Obj := none }

/-- The syntax tree (ast.Node). -/
inductive Node where
  | ident (id : Ident)
  | selectorExpr (X : Node) (Sel : Ident)
  | callExpr (Fun : Node) (Lparen : Int) (Args : List Node) (Ellipsis : Int) (Rparen : Int)
  | other (tag : String) (pos : Int) (fin : Int) (children : List Node)
deriving Repr

/-- The method Ident.Pos. -/
def Ident.Pos (x : Ident) : Int := x.NamePos

/-- The method Ident.End: `NamePos + len(Name)`. -/
def Ident.End (x : Ident) : Int := x.NamePos + x.Name.length

/-- The method Pos of a node: SelectorExpr starts at its `X`, CallExpr at its `Fun`. -/
def Node.Pos : Node → Int
  | .ident x => x.Pos
  | .selectorExpr x _ => x.Pos
  | .callExpr f _ _ _ _ => f.Pos
  | .other _ p _ _ => p

/-- The method End of a node: SelectorExpr ends with its `Sel`, CallExpr one past
its closing parenthesis. -/
def Node.End : Node → Int
  | .ident x => x.End
  | .selectorExpr _ sel => sel.End
  | .callExpr _ _ _ _ rp => rp + 1
  | .other _ _ e _ => e

/-- What `Visit` hands back to `ast.Walk`. `skip n s`: the visitor returned nil,
the visited node is now `n` and its children are not walked. `descend s`: the
visitor returned itself and left the visited node as it was. -/
inductive VisitResult (σ : Type) where
  | skip (n : Node) (s : σ)
  | descend (s : σ)

/-- The visitor state after a call of `Visit`. -/
def VisitResult.state {σ : Type} : VisitResult σ → σ
  | .skip _ s => s
  | .descend s => s

/-- The `Walk(v, n.Sel)` step of a selector expression: the identifier has no
children, so the step is `v.Visit(n.Sel)` followed, when that returns a visitor,
by `v.Visit(nil)`. -/
def walkIdent {σ : Type} (visit : σ → Option Node → Option (VisitResult σ)) (s : σ)
    (sel : Ident) : Option (Ident × σ) :=
  match visit s (some (.ident sel)) with
  | none => none
  | some (.skip (.ident sel1) s1) => some (sel1, s1)
  | some (.skip _ s1) => some (sel, s1)
  | some (.descend s1) =>
    match visit s1 none with
    | none => none
    | some r => some (sel, r.state)

mutual
/-- The function ast.Walk: call `v.Visit(node)`; when it returns nil stop,
otherwise walk the children in order and finish with `v.Visit(nil)`. -/
def astWalk {σ : Type} (visit : σ → Option Node → Option (VisitResult σ)) (s : σ) :
    Node → Option (Node × σ)
  | .ident id =>
    match visit s (some (.ident id)) with
    | none => none
    | some (.skip n s1) => some (n, s1)
    | some (.descend s1) =>
      match visit s1 none with
      | none => none
      | some r => some (.ident id, r.state)
  | .selectorExpr x sel =>
    match visit s (some (.selectorExpr x sel)) with
    | none => none
    | some (.skip n s1) => some (n, s1)
    | some (.descend s1) =>
      match astWalk visit s1 x with
      | none => none
      | some (x1, s2) =>
        match walkIdent visit s2 sel with
        | none => none
        | some (sel1, s3) =>
          match visit s3 none with
          | none => none
          | some r => some (.selectorExpr x1 sel1, r.state)
  | .callExpr f lp args el rp =>
    match visit s (some (.callExpr f lp args el rp)) with
    | none => none
    | some (.skip n s1) => some (n, s1)
    | some (.descend s1) =>
      match astWalk visit s1 f with
      | none => none
      | some (f1, s2) =>
        match walkList visit s2 args with
        | none => none
        | some (args1, s3) =>
          match visit s3 none with
          | none => none
          | some r => some (.callExpr f1 lp args1 el rp, r.state)
  | .other tag p e cs =>
    match visit s (some (.other tag p e cs)) with
    | none => none
    | some (.skip n s1) => some (n, s1)
    | some (.descend s1) =>
      match walkList visit s1 cs with
      | none => none
      | some (cs1, s2) =>
        match visit s2 none with
        | none => none
        | some r => some (.other tag p e cs1, r.state)
/-- The helper walkList of go/ast: walk the nodes of a list from left to right. -/
def walkList {σ : Type} (visit : σ → Option Node → Option (VisitResult σ)) (s : σ) :
    List Node → Option (List Node × σ)
  | [] => some ([], s)
  | n :: ns =>
    match astWalk visit s n with
    | none => none
    | some (n1, s1) =>
      match walkList visit s1 ns with
      | none => none
      | some (ns1, s2) => some (n1 :: ns1, s2)
end

/-! ## src/main.go -/

/-- The struct Walker (main.go:16). The field `file` is the tree the walker is
run on; it is passed to the functions below as an argument of its own. -/
structure Walker where
  fset : FileSet
  addNewIoPackage : Bool
  hasReadAll : Bool
  src : String

/-- The function getStringVersion (main.go:29): a quote, the printed start
position followed by `NEW_LINE`, the bytes `src[start-1 : end-1]`, a quote. -/
def getStringVersion (n : Node) (src : ByteSlice) (fset : FileSet) : Option String :=
  let start := n.Pos
  let fin := n.End
  let startf := fset.Position n.Pos
  match src.slice (start - 1) (fin - 1) with
  | none => none
  | some bytes =>
    some ("\"" ++ (startf.String ++ "NEW_LINE") ++ String.mk bytes ++ "\"")

/-- The method Walker.Visit (main.go:44). -/
def Walker.Visit (fs : FileSystem) (walker : Walker) :
    Option Node → Option (VisitResult Walker)
  | none => some (.descend walker)
  | some node =>
    match node with
    | .callExpr fn lp args el rp =>
      match fn with
      | .selectorExpr xx sel =>
        match xx with
        | .ident x =>
          if x.Name = "io" then
            if sel.Name = "ReadAll" then
              let codeSnippet : Option String :=
                match fs walker.src with
                | none => some "Could not generate code"
                | some src => getStringVersion node src walker.fset
              match codeSnippet with
              | none => none
              | some codeSnippet =>
                some (.skip
                  (.callExpr (.selectorExpr (.ident { x with Name := "io2" }) sel) lp
                    (args ++ [.ident (NewIdent codeSnippet)]) el rp)
                  { walker with hasReadAll := true })
            else some (.descend walker)
          else some (.descend walker)
        | _ => some (.descend walker)
      | _ => some (.descend walker)
    | _ => some (.descend walker)

/-- The struct IoUsageChecker (main.go:95). -/
structure IoUsageChecker where
  UsesOtherIo : Bool
deriving DecidableEq, Repr

/-- The method IoUsageChecker.Visit (main.go:101). -/
def IoUsageChecker.Visit (walker : IoUsageChecker) :
    Option Node → Option (VisitResult IoUsageChecker)
  | none => some (.descend walker)
  | some node =>
    match node with
    | .selectorExpr xx sel =>
      match xx with
      | .ident pack =>
        if pack.Name = "io" ∧ sel.Name ≠ "ReadAll" then
          some (.descend { walker with UsesOtherIo := true })
        else some (.descend walker)
      | _ => some (.descend walker)
    | _ => some (.descend walker)

/-! ## golang.org/x/tools/go/ast/astutil

The program edits the import list only through `astutil`. A file is modelled by
its list of import specs `f.Imports`, which after parsing holds the specs of
the import declarations in source order, and by the tree `ast.Walk` is started on,
the `*ast.File` node without its import declarations (they hold no selector or
call expression, so neither visitor reads or changes them). -/

/-- The type ast.ImportSpec: the local name (`none` when the spec has no `Name`)
and the import path with its quotes removed, as `importPath` returns it. -/
structure ImportSpec where
  Name : Option String
  Path : String
deriving DecidableEq, Repr

/-- The type ast.File. -/
structure File where
  Imports : List ImportSpec
  Root : Node

/-- The helper importName of astutil: the local name, `""` when there is none. -/
def importName (s : ImportSpec) : String :=
  match s.Name with
  | none => ""
  | some n => n

/-- The helper importPath of astutil. -/
def importPath (s : ImportSpec) : String := s.Path

/-- The helper imports of astutil: does `f` have an import with this name and path. -/
def imports (f : File) (name path : String) : Bool :=
  f.Imports.any (fun s => decide (importName s = name ∧ importPath s = path))

/-- The helper importSpec of astutil: the first import spec of `f` with this path. -/
def importSpec (f : File) (path : String) : Option ImportSpec :=
  f.Imports.find? (fun s => decide (importPath s = path))

/-- The function astutil.AddNamedImport, as far as the import list goes: nothing
happens when the file already imports `path` under `name`; otherwise a new spec
(named when `name` is not empty) is appended to `f.Imports`. -/
def AddNamedImport (f : File) (name path : String) : File :=
  if imports f name path then f
  else
    { f with Imports := f.Imports ++ [{ Name := if name ≠ "" then some name else none, Path := path }] }

/-- The function astutil.DeleteNamedImport, as far as the import list goes: every
spec whose name and path are both the given ones is removed. -/
def DeleteNamedImport (f : File) (name path : String) : File :=
  { f with Imports := f.Imports.filter (fun s => !decide (importName s = name ∧ importPath s = path)) }

/-- The function astutil.DeleteImport: `DeleteNamedImport` with the empty name. -/
def DeleteImport (f : File) (path : String) : File := DeleteNamedImport f "" path

/-- The helper isTopName of astutil: an identifier with the given name that the
parser left unresolved. -/
def isTopName (n : Node) (name : String) : Bool :=
  match n with
  | .ident id => decide (id.Name = name ∧ id.Obj = none)
  | _ => false

/-- The visitor of astutil.UsesImport: it sets `used` at every selector
expression whose `X` is the top-level name, and always returns itself. -/
def usesImportVisit (name : String) (used : Bool) : Option Node → Option (VisitResult Bool)
  | none => some (.descend used)
  | some node =>
    match node with
    | .selectorExpr xx _ => if isTopName xx name then some (.descend true) else some (.descend used)
    | _ => some (.descend used)

/-- The last element of an import path: what follows its last slash. -/
def lastPathElem (path : String) : String :=
  String.mk (path.data.reverse.takeWhile (fun c => c ≠ '/')).reverse

/-- The function astutil.UsesImport: false when the file has no import of
`path`; true for a blank or dot import; otherwise whether some selector
expression of the file has the import name as its unresolved qualifier. The
name of an unnamed import is guessed as the last element of the path. -/
def UsesImport (f : File) (path : String) : Bool :=
  match importSpec f path with
  | none => false
  | some spec =>
    let name :=
      match spec.Name with
      | none => lastPathElem path
      | some n => n
    if spec.Name = some "_" ∨ spec.Name = some "." then true
    else
      match astWalk (usesImportVisit name) false f.Root with
      | none => false
      | some (_, used) => used

/-! ## src/main.go, the per-file pipeline -/

/-- The method Walker.usesIoPackage (main.go:129). -/
def Walker.usesIoPackage (file : File) : Bool := UsesImport file "io"

/-- The method Walker.addNewIoImport (main.go:133). -/
def Walker.addNewIoImport (walker : Walker) (file : File) : File :=
  if walker.addNewIoPackage then
    AddNamedImport file "io2" "github.com/AdamKorcz/bugdetectors/io"
  else
    AddNamedImport (DeleteImport file "io") "io2" "github.com/AdamKorcz/bugdetectors/io"

/-- What the callback of `rewrite` does with one parsed file: it returns early,
or it prints `file`, the tree after the two walks and the import fix. -/
inductive Outcome where
  | skipped
  | emitted (file : File) (walker : Walker) (ioWalker : IoUsageChecker)

/-- The callback of rewrite (main.go:181-205) on the file `f` parsed from `path`
with the file set `fset`: the `usesIoPackage` check, the `IoUsageChecker` walk, the
`Walker` walk, and `addNewIoImport` when a call was rewritten. -/
def rewriteFile (fs : FileSystem) (fset : FileSet) (path : String) (f : File) :
    Option Outcome :=
  let walker : Walker :=
    { fset := fset, addNewIoPackage := false, hasReadAll := false, src := path }
  if !Walker.usesIoPackage f then some .skipped
  else
    match astWalk IoUsageChecker.Visit { UsesOtherIo := false } f.Root with
    | none => none
    | some (root1, ioWalker) =>
      match astWalk (Walker.Visit fs) walker root1 with
      | none => none
      | some (root2, walker2) =>
        if walker2.hasReadAll then
          let walker3 := { walker2 with addNewIoPackage := ioWalker.UsesOtherIo }
          some (.emitted (walker3.addNewIoImport { f with Root := root2 }) walker3 ioWalker)
        else some (.emitted { f with Root := root2 } walker2 ioWalker)

/-! ## The vocabulary of the specification -/

/-- A call expression `q.ReadAll(...)`: the callee is a selector expression whose
qualifier is the identifier `q` and whose selected name is `ReadAll`. -/
def isReadAllCall (q : String) : Node → Bool
  | .callExpr (.selectorExpr (.ident x) sel) _ _ _ _ =>
    decide (x.Name = q) && decide (sel.Name = "ReadAll")
  | _ => false

mutual
/-- The number of call expressions `q.ReadAll(...)` anywhere in a tree. -/
def countCalls (q : String) : Node → Nat
  | .ident _ => 0
  | .selectorExpr x _ => countCalls q x
  | .callExpr f lp args el rp =>
    (if isReadAllCall q (.callExpr f lp args el rp) then 1 else 0)
      + (countCalls q f + countCallsList q args)
  | .other _ _ _ cs => countCallsList q cs
/-- The number of call expressions `q.ReadAll(...)` anywhere in a list of trees. -/
def countCallsList (q : String) : List Node → Nat
  | [] => 0
  | n :: ns => countCalls q n + countCallsList q ns
end

mutual
/-- No call `io.ReadAll(...)` of the tree lies inside the arguments of another
call `io.ReadAll(...)`. -/
def nestFree : Node → Bool
  | .ident _ => true
  | .selectorExpr x _ => nestFree x
  | .callExpr f lp args el rp =>
    if isReadAllCall "io" (.callExpr f lp args el rp) then
      decide (countCallsList "io" args = 0)
    else nestFree f && nestFreeList args
  | .other _ _ _ cs => nestFreeList cs
/-- The same for every tree of a list. -/
def nestFreeList : List Node → Bool
  | [] => true
  | n :: ns => nestFree n && nestFreeList ns
end

/-- A selector expression `io.X` with `X` different from `ReadAll`. -/
def isOtherIoSelector : Node → Bool
  | .selectorExpr (.ident pack) sel => decide (pack.Name = "io") && decide (sel.Name ≠ "ReadAll")
  | _ => false

mutual
/-- The tree contains a selector expression `io.X` with `X` different from `ReadAll`. -/
def hasOtherIo : Node → Bool
  | .ident _ => false
  | .selectorExpr x sel => isOtherIoSelector (.selectorExpr x sel) || hasOtherIo x
  | .callExpr f _ args _ _ => hasOtherIo f || hasOtherIoList args
  | .other _ _ _ cs => hasOtherIoList cs
/-- Some tree of the list contains such a selector expression. -/
def hasOtherIoList : List Node → Bool
  | [] => false
  | n :: ns => hasOtherIo n || hasOtherIoList ns
end

/-- The import spec `io2 "github.com/AdamKorcz/bugdetectors/io"`. -/
def io2Spec : ImportSpec := { Name := some "io2", Path := "github.com/AdamKorcz/bugdetectors/io" }

/-- The provenance text `Visit` computes for a matched call: the placeholder when
the file cannot be read, otherwise the result of `getStringVersion`. -/
def Walker.codeSnippet (fs : FileSystem) (walker : Walker) (node : Node) : Option String :=
  match fs walker.src with
  | none => some "Could not generate code"
  | some src => getStringVersion node src walker.fset

/-- The constructor of a node: 0 identifier, 1 selector, 2 call, 3 other. -/
def Node.kind : Node → Nat
  | .ident _ => 0
  | .selectorExpr _ _ => 1
  | .callExpr _ _ _ _ _ => 2
  | .other _ _ _ _ => 3

/-- The qualifier and selected name of a callee of the form `q.Name`. -/
def calleeOf : Node → Option (String × String)
  | .selectorExpr (.ident x) sel => some (x.Name, sel.Name)
  | _ => none

mutual
/-- Every node of a tree, the tree itself included, in the order of `ast.Walk`. -/
def subnodes : Node → List Node
  | .ident id => [.ident id]
  | .selectorExpr x sel => .selectorExpr x sel :: (subnodes x ++ [.ident sel])
  | .callExpr f lp args el rp => .callExpr f lp args el rp :: (subnodes f ++ subnodesList args)
  | .other tag p e cs => .other tag p e cs :: subnodesList cs
/-- Every node of the trees of a list. -/
def subnodesList : List Node → List Node
  | [] => []
  | n :: ns => subnodes n ++ subnodesList ns
end

/-! ### Example inputs -/

/-- The file set of a one-line file `a.go`: position `p` is line 1, column `p`. -/
def exFset : FileSet := { Position := fun p => { Filename := "a.go", Offset := p - 1, Line := 1, Column := p } }

/-- A file system on which every read fails. -/
def exNoFs : FileSystem := fun _ => none

/-- A fresh walker for `a.go`, as `rewrite` builds it. -/
def exWalker : Walker := { fset := exFset, addNewIoPackage := false, hasReadAll := false, src := "a.go" }

/-- The source text `io.ReadAll(f(io.ReadAll(r)))`. -/
def exNestedSrc : ByteSlice := { elems := "io.ReadAll(f(io.ReadAll(r)))".data, spare := [] }

/-- A file system holding `exNestedSrc` at `a.go`. -/
def exNestedFs : FileSystem := fun p => if p = "a.go" then some exNestedSrc else none

/-- The inner call `io.ReadAll(r)` of `exNestedSrc`, at columns 14 to 26. -/
def exInner : Node :=
  .callExpr (.selectorExpr (.ident { NamePos := 14, Name := "io", Obj := none })
      { NamePos := 17, Name := "ReadAll", Obj := none })
    24 [.ident { NamePos := 25, Name := "r", Obj := none }] 0 26

/-- The tree of `io.ReadAll(f(io.ReadAll(r)))`. -/
def exNested : Node :=
  .callExpr (.selectorExpr (.ident { NamePos := 1, Name := "io", Obj := none })
      { NamePos := 4, Name := "ReadAll", Obj := none })
    11 [.callExpr (.ident { NamePos := 12, Name := "f", Obj := none }) 13 [exInner] 0 27] 0 28

/-- The source text `io.ReadAll(r); io.ReadAll(s)`. -/
def exTwoSrc : ByteSlice := { elems := "io.ReadAll(r); io.ReadAll(s)".data, spare := [] }

/-- A file system holding `exTwoSrc` at `a.go`. -/
def exTwoFs : FileSystem := fun p => if p = "a.go" then some exTwoSrc else none

/-- The call `io.ReadAll(a)` whose qualifier starts at `pos` and is resolved to `obj`. -/
def exCall (pos : Int) (obj : Option ObjKind) (a : String) : Node :=
  .callExpr (.selectorExpr (.ident { NamePos := pos, Name := "io", Obj := obj })
      { NamePos := pos + 3, Name := "ReadAll", Obj := none })
    (pos + 10) [.ident { NamePos := pos + 11, Name := a, Obj := none }] 0 (pos + 12)

/-- The tree of `io.ReadAll(r); io.ReadAll(s)`: a statement list with two calls. -/
def exTwo : Node := .other "BlockStmt" 1 29 [exCall 1 none "r", exCall 16 none "s"]

/-- The call `exCall` after its rewrite, with the provenance text `p`. -/
def exCallAfter (pos : Int) (obj : Option ObjKind) (a p : String) : Node :=
  .callExpr (.selectorExpr (.ident { NamePos := pos, Name := "io2", Obj := obj })
      { NamePos := pos + 3, Name := "ReadAll", Obj := none })
    (pos + 10)
    [.ident { NamePos := pos + 11, Name := a, Obj := none }, .ident { NamePos := 0, Name := p, Obj := none }]
    0 (pos + 12)

/-- The tree `exTwo` after the walk. -/
def exTwoAfter : Node :=
  .other "BlockStmt" 1 29
    [exCallAfter 1 none "r" "\"a.go:1:1NEW_LINEio.ReadAll(r)\"",
     exCallAfter 16 none "s" "\"a.go:1:16NEW_LINEio.ReadAll(s)\""]

/-- The provenance text of the first call of `exTwoSrc`. -/
def exSnippet : String := "\"a.go:1:1NEW_LINEio.ReadAll(r)\""

/-- The body of a string literal, the text between its two quotes, is well
formed on one line: it has no raw newline and no double quote that is not
escaped by a backslash, and it does not end in the middle of an escape. -/
def literalBodyOk : List Char → Bool
  | [] => true
  | c :: rest =>
    if c = '\\' then
      match rest with
      | [] => false
      | _ :: rest2 => literalBodyOk rest2
    else if c = '"' ∨ c = '\n' then false
    else literalBodyOk rest

/-- The text is one well-formed single-line string literal: it begins and ends
with a double quote and its body is well formed. -/
def isSingleLineStringLiteral (s : String) : Bool :=
  match s.data with
  | [] => false
  | c :: rest =>
    decide (c = '"') && decide (rest.getLast? = some '"') && literalBodyOk rest.dropLast

/-- A file that imports `io` and uses `io.EOF` only: `package main; var e = io.EOF`. -/
def exEofFile : File :=
  { Imports := [{ Name := none, Path := "io" }],
    Root := .other "File" 1 40
      [.ident { NamePos := 9, Name := "main", Obj := none },
       .other "GenDecl" 27 40
         [.other "ValueSpec" 31 40
           [.ident { NamePos := 31, Name := "e", Obj := some ObjKind.Var },
            .selectorExpr (.ident { NamePos := 35, Name := "io", Obj := none })
              { NamePos := 38, Name := "EOF", Obj := none }]]] }

/-- The source text `io.ReadAll(f("a"))`, a call with a string literal inside. -/
def exQuoteSrc : ByteSlice := { elems := "io.ReadAll(f(\"a\"))".data, spare := [] }

/-- The tree of the call `io.ReadAll(f("a"))`. -/
def exQuoteCall : Node :=
  .callExpr (.selectorExpr (.ident { NamePos := 1, Name := "io", Obj := none })
      { NamePos := 4, Name := "ReadAll", Obj := none })
    11 [.callExpr (.ident { NamePos := 12, Name := "f", Obj := none }) 13
          [.other "BasicLit" 14 17 []] 0 17] 0 18

/-- The source text of the call `io.ReadAll(r)` written on two lines. -/
def exTwoLineSrc : ByteSlice := { elems := "io.ReadAll(\nr)".data, spare := [] }

/-- The tree of the two-line call. -/
def exTwoLineCall : Node :=
  .callExpr (.selectorExpr (.ident { NamePos := 1, Name := "io", Obj := none })
      { NamePos := 4, Name := "ReadAll", Obj := none })
    11 [.ident { NamePos := 13, Name := "r", Obj := none }] 0 14

/-- A file with the import `io "io"`, the package imported under its own name
written out, and the single call `io.ReadAll(r)`. -/
def exNamedImportFile : File :=
  { Imports := [{ Name := some "io", Path := "io" }],
    Root := .other "File" 1 60 [.ident { NamePos := 9, Name := "main", Obj := none },
      .other "FuncDecl" 30 60 [exCall 40 none "r"]] }

/-- A file that imports `io`, calls `io.ReadAll(r)` and has no other use of `io`. -/
def exPlainFile : File :=
  { Imports := [{ Name := none, Path := "io" }],
    Root := .other "File" 1 60 [.ident { NamePos := 9, Name := "main", Obj := none },
      .other "FuncDecl" 30 60 [exCall 40 none "r"]] }

mutual
/-- The tree `t1` is the tree of the first argument except at calls
`io.ReadAll(...)`, where the qualifier is named `io2` and one identifier without
position stands after the arguments. Every other node has the same fields, and
so have the qualifier (position, object), the selected name, the parentheses
and the arguments of a rewritten call. -/
def OnlyRewrites : Node → Node → Prop
  | .ident id, t1 => t1 = .ident id
  | .selectorExpr x sel, t1 => ∃ x1, t1 = .selectorExpr x1 sel ∧ OnlyRewrites x x1
  | .callExpr f lp args el rp, t1 =>
    (isReadAllCall "io" (.callExpr f lp args el rp) = true ∧
      ∃ (x sel : Ident) (p : String), f = .selectorExpr (.ident x) sel ∧
        t1 = .callExpr (.selectorExpr (.ident { x with Name := "io2" }) sel) lp
          (args ++ [.ident (NewIdent p)]) el rp) ∨
    (isReadAllCall "io" (.callExpr f lp args el rp) = false ∧
      ∃ f1 args1, t1 = .callExpr f1 lp args1 el rp ∧ OnlyRewrites f f1 ∧
        OnlyRewritesList args args1)
  | .other tag p e cs, t1 => ∃ cs1, t1 = .other tag p e cs1 ∧ OnlyRewritesList cs cs1
/-- The same, tree by tree, for two lists of trees. -/
def OnlyRewritesList : List Node → List Node → Prop
  | [], l => l = []
  | n :: ns, l => ∃ n1 ns1, l = n1 :: ns1 ∧ OnlyRewrites n n1 ∧ OnlyRewritesList ns ns1
end

/-- The statements `x := io.EOF; io.ReadAll(r); f(x)`: another member of `io`,
a call to rewrite and a call of another function. -/
def exMixed : Node :=
  .other "BlockStmt" 1 40
    [.other "AssignStmt" 1 11
       [.ident { NamePos := 1, Name := "x", Obj := some ObjKind.Var },
        .selectorExpr (.ident { NamePos := 6, Name := "io", Obj := none })
          { NamePos := 9, Name := "EOF", Obj := none }],
     exCall 14 none "r",
     .callExpr (.ident { NamePos := 29, Name := "f", Obj := none }) 30
       [.ident { NamePos := 31, Name := "x", Obj := some ObjKind.Var }] 0 32]

/-- The tree `exMixed` after the walk, when the file cannot be read. -/
def exMixedAfter : Node :=
  .other "BlockStmt" 1 40
    [.other "AssignStmt" 1 11
       [.ident { NamePos := 1, Name := "x", Obj := some ObjKind.Var },
        .selectorExpr (.ident { NamePos := 6, Name := "io", Obj := none })
          { NamePos := 9, Name := "EOF", Obj := none }],
     exCallAfter 14 none "r" "Could not generate code",
     .callExpr (.ident { NamePos := 29, Name := "f", Obj := none }) 30
       [.ident { NamePos := 31, Name := "x", Obj := some ObjKind.Var }] 0 32]

/-! ## src/main.go, the file filter -/

/-- The interface os.FileInfo, with the two methods `isGoFile` calls. -/
structure FileInfo where
  Name : String
  IsDir : Bool

/-- The loop of filepath.Ext over the bytes of the path from the last one
backwards: stop with the empty result at a path separator, with the suffix from
the dot on at a dot. `acc` holds the bytes already passed. -/
def extLoop : List Char → List Char → List Char
  | [], _ => []
  | c :: rest, acc =>
    if c = '/' then []
    else if c = '.' then c :: acc
    else extLoop rest (c :: acc)

/-- The function filepath.Ext: the suffix of the last path element that starts
at its last dot, empty when there is no dot. -/
def filepathExt (path : String) : String := String.mk (extLoop path.data.reverse [])

/-- The function strings.Contains: `substr` starts at some index of `s`. -/
def stringsContains (s substr : String) : Bool :=
  s.data.tails.any (fun t => substr.data.isPrefixOf t)

/-- The function strings.HasSuffix: `s` ends with `suffix`. -/
def stringsHasSuffix (s suffix : String) : Bool := suffix.data.isSuffixOf s.data

/-- The function isGoFile (main.go:117). -/
def isGoFile (info : FileInfo) : Bool :=
  if info.IsDir then false
  else
    let ext := filepathExt info.Name
    if ext ≠ ".go" ∨ stringsContains info.Name "_test.go" then false
    else true

/-- A selector expression whose qualifier is the identifier `io`. -/
def isIoQualified : Node → Bool
  | .selectorExpr (.ident x) _ => decide (x.Name = "io")
  | _ => false

/-- What is printed for a file, as far as the removed import goes: the import
list, `hasReadAll`, `UsesOtherIo`, and whether some node of the printed tree is
a selector expression with qualifier `io`. -/
def Outcome.ioSummary : Outcome → Option (List ImportSpec × Bool × Bool × Bool)
  | .skipped => none
  | .emitted file walker ioWalker =>
    some (file.Imports, walker.hasReadAll, ioWalker.UsesOtherIo,
      (subnodes file.Root).any isIoQualified)

/-- A file that imports `io` and holds `io.ReadAll(f(io.ReadAll(r)))`. -/
def exNestedFile : File :=
  { Imports := [{ Name := none, Path := "io" }], Root := .other "File" 1 29 [exNested] }

/-- A file that imports `io` and holds `g := io.ReadAll; io.ReadAll(r)`: the
function is used once as a value and called once. -/
def exValueFile : File :=
  { Imports := [{ Name := none, Path := "io" }],
    Root := .other "File" 1 40
      [.other "AssignStmt" 1 16
         [.ident { NamePos := 1, Name := "g", Obj := some ObjKind.Var },
          .selectorExpr (.ident { NamePos := 6, Name := "io", Obj := none })
            { NamePos := 9, Name := "ReadAll", Obj := none }],
       exCall 18 none "r"] }

/-- Three bytes read from a truncated file into the buffer of 512 bytes that
`os.ReadFile` allocates: `len` is 3, `cap` is 512. -/
def exShortSrc : ByteSlice := { elems := "io.".data, spare := List.replicate 509 (Char.ofNat 0) }

/-! ## go/parser, positions

A file is parsed into a fresh file set, so the file has base 1 and the byte at
offset `k` has position `k + 1`. The parser gives every node the positions of
the tokens it is made of. -/

/-- The bytes `tok` stand in `src` at position `pos`: offsets `pos-1` up to
`pos-1+len(tok)` lie within `len(src)` and hold `tok`. -/
def tokenAt (src : ByteSlice) (pos : Int) (tok : List Char) : Bool :=
  decide (1 ≤ pos ∧ pos - 1 + tok.length ≤ src.len) &&
    decide ((src.elems.drop (pos - 1).toNat).take tok.length = tok)

mutual
/-- The tree carries the positions go/parser gives it for the bytes `src`: an
identifier stands where its name is written; in `X.Sel` the name `Sel` comes
after the end of `X` and the dot; in a call the parentheses stand at `Lparen`
and `Rparen`, the callee ends before `Lparen`, and the arguments lie between the
two; any other node spans bytes of the file. -/
def parsedFrom (src : ByteSlice) : Node → Bool
  | .ident id => tokenAt src id.NamePos id.Name.data
  | .selectorExpr x sel =>
    parsedFrom src x && tokenAt src sel.NamePos sel.Name.data && decide (x.End < sel.NamePos)
  | .callExpr f lp args _ rp =>
    parsedFrom src f && parsedFromList src args &&
      tokenAt src lp ['('] && tokenAt src rp [')'] &&
      decide (f.End ≤ lp) && decide (lp < rp) &&
      args.all (fun a => decide (lp < a.Pos) && decide (a.End ≤ rp))
  | .other _ p e cs =>
    decide (1 ≤ p ∧ p ≤ e ∧ e ≤ src.len + 1) && parsedFromList src cs
/-- Every tree of the list carries the positions of go/parser. -/
def parsedFromList (src : ByteSlice) : List Node → Bool
  | [] => true
  | n :: ns => parsedFrom src n && parsedFromList src ns
end

/-! ## Lemmas -/

/-- Induction over a tree together with its lists of children. -/
theorem Node.induct {P : Node → Prop} {Q : List Node → Prop}
    (hid : ∀ id, P (.ident id))
    (hsel : ∀ x sel, P x → P (.selectorExpr x sel))
    (hcall : ∀ f lp args el rp, P f → Q args → P (.callExpr f lp args el rp))
    (hother : ∀ tag p e cs, Q cs → P (.other tag p e cs))
    (hnil : Q [])
    (hcons : ∀ n ns, P n → Q ns → Q (n :: ns)) :
    (∀ n, P n) ∧ (∀ ns, Q ns) :=
  ⟨fun n => @Node.rec P Q hid hsel hcall hother hnil hcons n,
   fun ns => @Node.rec_1 P Q hid hsel hcall hother hnil hcons ns⟩

/-! ### The walk of `Walker`, node by node -/

/-- The walk of an identifier: nothing matches, nothing changes. -/
theorem walker_walk_ident (fs : FileSystem) (w : Walker) (id : Ident) :
    astWalk (Walker.Visit fs) w (.ident id) = some (.ident id, w) := rfl

/-- The walk of the `Sel` identifier of a selector expression changes nothing. -/
theorem walker_walkIdent (fs : FileSystem) (w : Walker) (sel : Ident) :
    walkIdent (Walker.Visit fs) w sel = some (sel, w) := rfl

/-- The walk of a selector expression is the walk of its `X`. -/
theorem walker_walk_selector (fs : FileSystem) (w : Walker) (x : Node) (sel : Ident) :
    astWalk (Walker.Visit fs) w (.selectorExpr x sel) =
      (astWalk (Walker.Visit fs) w x).bind
        (fun r => some (.selectorExpr r.1 sel, r.2)) := by
  rw [astWalk]
  simp only [Walker.Visit]
  cases astWalk (Walker.Visit fs) w x with
  | none => rfl
  | some r => rfl

/-- The walk of a node of another type is the walk of its children. -/
theorem walker_walk_other (fs : FileSystem) (w : Walker) (tag : String) (p e : Int)
    (cs : List Node) :
    astWalk (Walker.Visit fs) w (.other tag p e cs) =
      (walkList (Walker.Visit fs) w cs).bind
        (fun r => some (.other tag p e r.1, r.2)) := by
  rw [astWalk]
  simp only [Walker.Visit]
  cases walkList (Walker.Visit fs) w cs with
  | none => rfl
  | some r => rfl

/-- On a node that is not a call `io.ReadAll(...)`, `Visit` returns the walker. -/
theorem walker_visit_noMatch (fs : FileSystem) (w : Walker) (n : Node)
    (h : isReadAllCall "io" n = false) :
    Walker.Visit fs w (some n) = some (.descend w) := by
  cases n with
  | ident id => rfl
  | selectorExpr x sel => rfl
  | other tag p e cs => rfl
  | callExpr f lp args el rp =>
    cases f with
    | ident id => rfl
    | callExpr _ _ _ _ _ => rfl
    | other _ _ _ _ => rfl
    | selectorExpr x sel =>
      cases x with
      | selectorExpr _ _ => rfl
      | callExpr _ _ _ _ _ => rfl
      | other _ _ _ _ => rfl
      | ident id =>
        simp only [isReadAllCall, Bool.and_eq_false_imp, decide_eq_true_eq, decide_eq_false_iff_not] at h
        simp only [Walker.Visit]
        by_cases h1 : id.Name = "io"
        · simp [h1, h h1]
        · simp [h1]

/-- The walk of a call that does not match walks `Fun`, then the arguments. -/
theorem walker_walk_call_noMatch (fs : FileSystem) (w : Walker) (f : Node) (lp : Int)
    (args : List Node) (el rp : Int)
    (h : isReadAllCall "io" (.callExpr f lp args el rp) = false) :
    astWalk (Walker.Visit fs) w (.callExpr f lp args el rp) =
      (astWalk (Walker.Visit fs) w f).bind (fun r =>
        (walkList (Walker.Visit fs) r.2 args).bind (fun r2 =>
          some (.callExpr r.1 lp r2.1 el rp, r2.2))) := by
  rw [astWalk, walker_visit_noMatch fs w _ h]
  simp only []
  cases astWalk (Walker.Visit fs) w f with
  | none => rfl
  | some r =>
    obtain ⟨f1, w1⟩ := r
    simp only [Option.bind]
    cases walkList (Walker.Visit fs) w1 args with
    | none => rfl
    | some r2 => rfl

/-- On a call `io.ReadAll(...)`, `Visit` rewrites the call and returns nil. -/
theorem walker_visit_match (fs : FileSystem) (w : Walker) (x sel : Ident) (lp : Int)
    (args : List Node) (el rp : Int) (hx : x.Name = "io") (hs : sel.Name = "ReadAll") :
    Walker.Visit fs w (some (.callExpr (.selectorExpr (.ident x) sel) lp args el rp)) =
      match w.codeSnippet fs (.callExpr (.selectorExpr (.ident x) sel) lp args el rp) with
      | none => none
      | some p =>
        some (.skip
          (.callExpr (.selectorExpr (.ident { x with Name := "io2" }) sel) lp
            (args ++ [.ident (NewIdent p)]) el rp)
          { w with hasReadAll := true }) := by
  simp only [Walker.Visit, hx, hs, if_true, Walker.codeSnippet]

/-- The walk of a call `io.ReadAll(...)` is its rewrite; nothing below is walked. -/
theorem walker_walk_call_match (fs : FileSystem) (w : Walker) (x sel : Ident) (lp : Int)
    (args : List Node) (el rp : Int) (hx : x.Name = "io") (hs : sel.Name = "ReadAll") :
    astWalk (Walker.Visit fs) w (.callExpr (.selectorExpr (.ident x) sel) lp args el rp) =
      (w.codeSnippet fs (.callExpr (.selectorExpr (.ident x) sel) lp args el rp)).bind
        (fun p =>
          some (.callExpr (.selectorExpr (.ident { x with Name := "io2" }) sel) lp
              (args ++ [.ident (NewIdent p)]) el rp,
            { w with hasReadAll := true })) := by
  rw [astWalk, walker_visit_match fs w x sel lp args el rp hx hs]
  cases w.codeSnippet fs (.callExpr (.selectorExpr (.ident x) sel) lp args el rp) with
  | none => rfl
  | some p => rfl

/-- The walk of a list: the head, then the tail with the state the head left. -/
theorem walker_walkList_cons (fs : FileSystem) (w : Walker) (n : Node) (ns : List Node) :
    walkList (Walker.Visit fs) w (n :: ns) =
      (astWalk (Walker.Visit fs) w n).bind (fun r =>
        (walkList (Walker.Visit fs) r.2 ns).bind (fun r2 => some (r.1 :: r2.1, r2.2))) := by
  rw [walkList]
  cases astWalk (Walker.Visit fs) w n with
  | none => rfl
  | some r =>
    obtain ⟨n1, w1⟩ := r
    simp only [Option.bind]
    cases walkList (Walker.Visit fs) w1 ns with
    | none => rfl
    | some r2 => rfl

/-- A call `q.ReadAll(...)` has a callee of the form `q.ReadAll`. -/
theorem isReadAllCall_shape (q : String) (f : Node) (lp : Int) (args : List Node)
    (el rp : Int) (h : isReadAllCall q (.callExpr f lp args el rp) = true) :
    ∃ x sel, f = .selectorExpr (.ident x) sel ∧ x.Name = q ∧ sel.Name = "ReadAll" := by
  cases f with
  | ident id => simp [isReadAllCall] at h
  | callExpr _ _ _ _ _ => simp [isReadAllCall] at h
  | other _ _ _ _ => simp [isReadAllCall] at h
  | selectorExpr x sel =>
    cases x with
    | selectorExpr _ _ => simp [isReadAllCall] at h
    | callExpr _ _ _ _ _ => simp [isReadAllCall] at h
    | other _ _ _ _ => simp [isReadAllCall] at h
    | ident id =>
      simp only [isReadAllCall, Bool.and_eq_true, decide_eq_true_eq] at h
      exact ⟨id, sel, rfl, h.1, h.2⟩

/-- The walk never changes the type of the node it is started on. -/
theorem walker_walk_kind (fs : FileSystem) (w : Walker) (n n1 : Node) (w1 : Walker)
    (h : astWalk (Walker.Visit fs) w n = some (n1, w1)) : n1.kind = n.kind := by
  cases n with
  | ident id =>
    rw [walker_walk_ident] at h
    cases h; rfl
  | selectorExpr x sel =>
    rw [walker_walk_selector] at h
    simp only [Option.bind_eq_some, Option.some.injEq, Prod.mk.injEq] at h
    obtain ⟨r, -, h2, -⟩ := h
    subst h2; rfl
  | other tag p e cs =>
    rw [walker_walk_other] at h
    simp only [Option.bind_eq_some, Option.some.injEq, Prod.mk.injEq] at h
    obtain ⟨r, -, h2, -⟩ := h
    subst h2; rfl
  | callExpr f lp args el rp =>
    cases hm : isReadAllCall "io" (.callExpr f lp args el rp) with
    | false =>
      rw [walker_walk_call_noMatch fs w f lp args el rp hm] at h
      simp only [Option.bind_eq_some, Option.some.injEq, Prod.mk.injEq] at h
      obtain ⟨r, -, r2, -, h2, -⟩ := h
      subst h2; rfl
    | true =>
      obtain ⟨x, sel, rfl, hx, hs⟩ := isReadAllCall_shape _ _ _ _ _ _ hm
      rw [walker_walk_call_match fs w x sel lp args el rp hx hs] at h
      simp only [Option.bind_eq_some, Option.some.injEq, Prod.mk.injEq] at h
      obtain ⟨p, -, h2, -⟩ := h
      subst h2; rfl

/-- Being a call `q.ReadAll(...)` is a property of the callee alone. -/
theorem isReadAllCall_eq (q : String) (f : Node) (lp : Int) (args : List Node) (el rp : Int) :
    isReadAllCall q (.callExpr f lp args el rp) = decide (calleeOf f = some (q, "ReadAll")) := by
  cases f with
  | ident id => simp [isReadAllCall, calleeOf]
  | callExpr _ _ _ _ _ => simp [isReadAllCall, calleeOf]
  | other _ _ _ _ => simp [isReadAllCall, calleeOf]
  | selectorExpr x sel =>
    cases x with
    | selectorExpr _ _ => simp [isReadAllCall, calleeOf]
    | callExpr _ _ _ _ _ => simp [isReadAllCall, calleeOf]
    | other _ _ _ _ => simp [isReadAllCall, calleeOf]
    | ident id =>
      simp only [isReadAllCall, calleeOf, Option.some.injEq, Prod.mk.injEq]
      by_cases h1 : id.Name = q <;> by_cases h2 : sel.Name = "ReadAll" <;> simp [h1, h2]

/-- The walk of a node keeps the qualifier and selected name it has as a callee. -/
theorem walker_walk_callee (fs : FileSystem) (w : Walker) (n n1 : Node) (w1 : Walker)
    (h : astWalk (Walker.Visit fs) w n = some (n1, w1)) : calleeOf n1 = calleeOf n := by
  cases n with
  | ident id =>
    rw [walker_walk_ident] at h
    cases h; rfl
  | other tag p e cs =>
    have := walker_walk_kind fs w _ _ _ h
    cases n1 <;> simp [Node.kind] at this
    rfl
  | callExpr f lp args el rp =>
    have := walker_walk_kind fs w _ _ _ h
    cases n1 <;> simp [Node.kind] at this
    rfl
  | selectorExpr x sel =>
    rw [walker_walk_selector] at h
    simp only [Option.bind_eq_some, Option.some.injEq, Prod.mk.injEq] at h
    obtain ⟨⟨x1, w2⟩, hx, h2, -⟩ := h
    subst h2
    have hk := walker_walk_kind fs w _ _ _ hx
    cases x with
    | ident id =>
      rw [walker_walk_ident] at hx
      cases hx; rfl
    | selectorExpr _ _ => cases x1 <;> simp [Node.kind] at hk; rfl
    | callExpr _ _ _ _ _ => cases x1 <;> simp [Node.kind] at hk; rfl
    | other _ _ _ _ => cases x1 <;> simp [Node.kind] at hk; rfl

/-- Counting calls in a concatenation of two lists. -/
theorem countCallsList_append (q : String) (a b : List Node) :
    countCallsList q (a ++ b) = countCallsList q a + countCallsList q b := by
  induction a with
  | nil => simp [countCallsList]
  | cons n ns ih => simp [countCallsList, ih, Nat.add_assoc]

/-- A tree without a call `io.ReadAll(...)` is walked without any change, to the
tree or to the walker. -/
theorem walker_walk_unchanged (fs : FileSystem) :
    (∀ n, ∀ w : Walker, countCalls "io" n = 0 → astWalk (Walker.Visit fs) w n = some (n, w)) ∧
    (∀ ns, ∀ w : Walker, countCallsList "io" ns = 0 →
      walkList (Walker.Visit fs) w ns = some (ns, w)) := by
  apply Node.induct
  · intro id w _
    rfl
  · intro x sel ih w h
    rw [walker_walk_selector, ih w (by simpa [countCalls] using h)]
    rfl
  · intro f lp args el rp ihf iha w h
    simp only [countCalls, Nat.add_eq_zero_iff] at h
    obtain ⟨h0, hf, ha⟩ := h
    have hm : isReadAllCall "io" (.callExpr f lp args el rp) = false := by
      cases hb : isReadAllCall "io" (.callExpr f lp args el rp) with
      | false => rfl
      | true => simp [hb] at h0
    rw [walker_walk_call_noMatch fs w f lp args el rp hm, ihf w hf]
    simp only [Option.bind]
    rw [iha w ha]
  · intro tag p e cs ih w h
    rw [walker_walk_other, ih w (by simpa [countCalls] using h)]
    rfl
  · intro w _
    rfl
  · intro n ns ihn ihns w h
    simp only [countCallsList, Nat.add_eq_zero_iff] at h
    rw [walker_walkList_cons, ihn w h.1]
    simp only [Option.bind]
    rw [ihns w h.2]

/-- The counts after a completed walk of a tree without nested matches: no call
`io.ReadAll(...)` is left and each one has become a call `io2.ReadAll(...)`. -/
theorem walker_walk_counts (fs : FileSystem) :
    (∀ n, ∀ (w : Walker) (n1 : Node) (w1 : Walker), nestFree n = true →
      astWalk (Walker.Visit fs) w n = some (n1, w1) →
      countCalls "io" n1 = 0 ∧
        countCalls "io2" n1 = countCalls "io2" n + countCalls "io" n) ∧
    (∀ ns, ∀ (w : Walker) (ns1 : List Node) (w1 : Walker), nestFreeList ns = true →
      walkList (Walker.Visit fs) w ns = some (ns1, w1) →
      countCallsList "io" ns1 = 0 ∧
        countCallsList "io2" ns1 = countCallsList "io2" ns + countCallsList "io" ns) := by
  apply Node.induct
  · intro id w n1 w1 _ h
    rw [walker_walk_ident] at h
    cases h
    simp [countCalls]
  · intro x sel ih w n1 w1 hn h
    rw [walker_walk_selector] at h
    simp only [Option.bind_eq_some, Option.some.injEq, Prod.mk.injEq] at h
    obtain ⟨⟨x1, w2⟩, hx, h2, -⟩ := h
    subst h2
    simp only [countCalls]
    exact ih w x1 w2 (by simpa [nestFree] using hn) hx
  · intro f lp args el rp ihf iha w n1 w1 hn h
    cases hm : isReadAllCall "io" (.callExpr f lp args el rp) with
    | false =>
      rw [walker_walk_call_noMatch fs w f lp args el rp hm] at h
      simp only [Option.bind_eq_some, Option.some.injEq, Prod.mk.injEq] at h
      obtain ⟨⟨f1, w2⟩, hf, ⟨a1, w3⟩, ha, h2, -⟩ := h
      subst h2
      simp only [nestFree, hm, Bool.false_eq_true, if_false, Bool.and_eq_true] at hn
      have hc := walker_walk_callee fs w f f1 w2 hf
      have e1 := ihf w f1 w2 hn.1 hf
      have e2 := iha w2 a1 w3 hn.2 ha
      have hm1 : isReadAllCall "io" (.callExpr f1 lp a1 el rp) = false := by
        rw [isReadAllCall_eq, hc, ← isReadAllCall_eq "io" f lp args el rp, hm]
      have hm2 : isReadAllCall "io2" (.callExpr f1 lp a1 el rp) =
          isReadAllCall "io2" (.callExpr f lp args el rp) := by
        rw [isReadAllCall_eq, hc, ← isReadAllCall_eq "io2" f lp args el rp]
      simp only [countCalls, hm, hm1, hm2, e1.1, e1.2, e2.1, e2.2]
      constructor
      · simp
      · simp only [Bool.false_eq_true, if_false]; omega
    | true =>
      obtain ⟨x, sel, rfl, hx, hs⟩ := isReadAllCall_shape _ _ _ _ _ _ hm
      rw [walker_walk_call_match fs w x sel lp args el rp hx hs] at h
      simp only [Option.bind_eq_some, Option.some.injEq, Prod.mk.injEq] at h
      obtain ⟨p, -, h2, -⟩ := h
      subst h2
      simp only [nestFree, hm, if_true, decide_eq_true_eq] at hn
      simp [countCalls, isReadAllCall, hx, hs, countCallsList_append, hn, countCallsList]
      omega
  · intro tag p e cs ih w n1 w1 hn h
    rw [walker_walk_other] at h
    simp only [Option.bind_eq_some, Option.some.injEq, Prod.mk.injEq] at h
    obtain ⟨⟨c1, w2⟩, hc, h2, -⟩ := h
    subst h2
    simp only [countCalls]
    exact ih w c1 w2 (by simpa [nestFree] using hn) hc
  · intro w ns1 w1 _ h
    simp only [walkList, Option.some.injEq, Prod.mk.injEq] at h
    obtain ⟨rfl, -⟩ := h
    simp [countCallsList]
  · intro n ns ihn ihns w ns1 w1 hn h
    rw [walker_walkList_cons] at h
    simp only [Option.bind_eq_some, Option.some.injEq, Prod.mk.injEq] at h
    obtain ⟨⟨m1, w2⟩, hm, ⟨ms1, w3⟩, hms, h2, -⟩ := h
    subst h2
    simp only [nestFreeList, Bool.and_eq_true] at hn
    have e1 := ihn w m1 w2 hn.1 hm
    have e2 := ihns w2 ms1 w3 hn.2 hms
    simp only [countCallsList, e1.1, e1.2, e2.1, e2.2]
    refine ⟨trivial, ?_⟩
    omega

/-- `IoUsageChecker.Visit` returns itself, with the flag set at a selector `io.X`. -/
theorem ioChecker_visit_state (s : IoUsageChecker) (n : Node) :
    IoUsageChecker.Visit s (some n) =
      some (.descend { UsesOtherIo := s.UsesOtherIo || isOtherIoSelector n }) := by
  cases n with
  | ident id => simp [IoUsageChecker.Visit, isOtherIoSelector]
  | callExpr _ _ _ _ _ => simp [IoUsageChecker.Visit, isOtherIoSelector]
  | other _ _ _ _ => simp [IoUsageChecker.Visit, isOtherIoSelector]
  | selectorExpr x sel =>
    cases x with
    | selectorExpr _ _ => simp [IoUsageChecker.Visit, isOtherIoSelector]
    | callExpr _ _ _ _ _ => simp [IoUsageChecker.Visit, isOtherIoSelector]
    | other _ _ _ _ => simp [IoUsageChecker.Visit, isOtherIoSelector]
    | ident id =>
      simp only [IoUsageChecker.Visit, isOtherIoSelector]
      by_cases h1 : id.Name = "io" <;> by_cases h2 : sel.Name = "ReadAll" <;> simp [h1, h2]

/-- The walk of `IoUsageChecker` returns the tree as it was and the flag it had or
found. -/
theorem ioChecker_walk :
    (∀ n, ∀ s : IoUsageChecker, astWalk IoUsageChecker.Visit s n =
      some (n, { UsesOtherIo := s.UsesOtherIo || hasOtherIo n })) ∧
    (∀ ns, ∀ s : IoUsageChecker, walkList IoUsageChecker.Visit s ns =
      some (ns, { UsesOtherIo := s.UsesOtherIo || hasOtherIoList ns })) := by
  apply Node.induct
  · intro id s
    rw [astWalk, ioChecker_visit_state]
    simp [IoUsageChecker.Visit, VisitResult.state, isOtherIoSelector, hasOtherIo]
  · intro x sel ih s
    rw [astWalk, ioChecker_visit_state]
    simp only [ih, walkIdent, ioChecker_visit_state]
    simp [IoUsageChecker.Visit, VisitResult.state, hasOtherIo, Bool.or_assoc,
      show isOtherIoSelector (.ident sel) = false from rfl]
  · intro f lp args el rp ihf iha s
    rw [astWalk, ioChecker_visit_state]
    simp only [ihf, iha]
    simp [IoUsageChecker.Visit, VisitResult.state, isOtherIoSelector, hasOtherIo, Bool.or_assoc]
  · intro tag p e cs ih s
    rw [astWalk, ioChecker_visit_state]
    simp only [ih]
    simp [IoUsageChecker.Visit, VisitResult.state, isOtherIoSelector, hasOtherIo]
  · intro s
    simp [walkList, hasOtherIoList]
  · intro n ns ihn ihns s
    rw [walkList]
    simp only [ihn, ihns]
    simp [hasOtherIoList, Bool.or_assoc]

/-- The recursive test `hasOtherIo` says that some node is a selector `io.X`. -/
theorem hasOtherIo_iff :
    (∀ n, hasOtherIo n = true ↔ ∃ m ∈ subnodes n, isOtherIoSelector m = true) ∧
    (∀ ns, hasOtherIoList ns = true ↔ ∃ m ∈ subnodesList ns, isOtherIoSelector m = true) := by
  apply Node.induct
  · intro id
    simp [hasOtherIo, subnodes, isOtherIoSelector]
  · intro x sel ih
    simp only [hasOtherIo, subnodes, Bool.or_eq_true, ih, List.mem_cons, List.mem_append,
      List.not_mem_nil, or_false]
    constructor
    · rintro (h | ⟨m, hm, h⟩)
      · exact ⟨_, Or.inl rfl, h⟩
      · exact ⟨m, Or.inr (Or.inl hm), h⟩
    · rintro ⟨m, (rfl | hm | rfl), h⟩
      · exact Or.inl h
      · exact Or.inr ⟨m, hm, h⟩
      · simp [isOtherIoSelector] at h
  · intro f lp args el rp ihf iha
    simp only [hasOtherIo, subnodes, Bool.or_eq_true, ihf, iha, List.mem_cons, List.mem_append]
    constructor
    · rintro (⟨m, hm, h⟩ | ⟨m, hm, h⟩)
      · exact ⟨m, Or.inr (Or.inl hm), h⟩
      · exact ⟨m, Or.inr (Or.inr hm), h⟩
    · rintro ⟨m, (rfl | hm | hm), h⟩
      · simp [isOtherIoSelector] at h
      · exact Or.inl ⟨m, hm, h⟩
      · exact Or.inr ⟨m, hm, h⟩
  · intro tag p e cs ih
    simp only [hasOtherIo, subnodes, ih, List.mem_cons]
    constructor
    · rintro ⟨m, hm, h⟩
      exact ⟨m, Or.inr hm, h⟩
    · rintro ⟨m, (rfl | hm), h⟩
      · simp [isOtherIoSelector] at h
      · exact ⟨m, hm, h⟩
  · simp [hasOtherIoList, subnodesList]
  · intro n ns ihn ihns
    simp only [hasOtherIoList, subnodesList, Bool.or_eq_true, ihn, ihns, List.mem_append]
    constructor
    · rintro (⟨m, hm, h⟩ | ⟨m, hm, h⟩)
      · exact ⟨m, Or.inl hm, h⟩
      · exact ⟨m, Or.inr hm, h⟩
    · rintro ⟨m, (hm | hm), h⟩
      · exact Or.inl ⟨m, hm, h⟩
      · exact Or.inr ⟨m, hm, h⟩

/-- The recursive count `countCalls` counts the nodes that are calls `q.ReadAll(...)`. -/
theorem countCalls_eq_countP (q : String) :
    (∀ n, countCalls q n = (subnodes n).countP (isReadAllCall q)) ∧
    (∀ ns, countCallsList q ns = (subnodesList ns).countP (isReadAllCall q)) := by
  apply Node.induct
  · intro id
    simp [countCalls, subnodes, isReadAllCall]
  · intro x sel ih
    simp [countCalls, subnodes, isReadAllCall, ih, List.countP_cons, List.countP_append]
  · intro f lp args el rp ihf iha
    simp only [countCalls, subnodes, ihf, iha, List.countP_cons, List.countP_append]
    omega
  · intro tag p e cs ih
    simp [countCalls, subnodes, isReadAllCall, ih, List.countP_cons]
  · simp [countCallsList, subnodesList]
  · intro n ns ihn ihns
    simp [countCallsList, subnodesList, ihn, ihns, List.countP_append]

/-- The provenance text depends on the walker through `src` and `fset` only. -/
theorem codeSnippet_congr (fs : FileSystem) (w w2 : Walker) (m : Node)
    (hsrc : w2.src = w.src) (hfset : w2.fset = w.fset) :
    w2.codeSnippet fs m = w.codeSnippet fs m := by
  simp only [Walker.codeSnippet, hsrc, hfset]

/-- The walk completes, and keeps `src` and `fset`, when the provenance text of
every call `io.ReadAll(...)` of the tree can be computed. -/
theorem walker_walk_succeeds (fs : FileSystem) :
    (∀ n, ∀ w : Walker,
      (∀ m ∈ subnodes n, isReadAllCall "io" m = true → (w.codeSnippet fs m).isSome = true) →
      ∃ n1 w1, astWalk (Walker.Visit fs) w n = some (n1, w1) ∧
        w1.src = w.src ∧ w1.fset = w.fset) ∧
    (∀ ns, ∀ w : Walker,
      (∀ m ∈ subnodesList ns, isReadAllCall "io" m = true →
        (w.codeSnippet fs m).isSome = true) →
      ∃ ns1 w1, walkList (Walker.Visit fs) w ns = some (ns1, w1) ∧
        w1.src = w.src ∧ w1.fset = w.fset) := by
  apply Node.induct
  · intro id w _
    exact ⟨_, _, walker_walk_ident fs w id, rfl, rfl⟩
  · intro x sel ih w h
    obtain ⟨x1, w1, hx, h1, h2⟩ := ih w (fun m hm => h m (by simp [subnodes, hm]))
    exact ⟨_, w1, by rw [walker_walk_selector, hx]; rfl, h1, h2⟩
  · intro f lp args el rp ihf iha w h
    cases hm : isReadAllCall "io" (.callExpr f lp args el rp) with
    | false =>
      obtain ⟨f1, w1, hf, h1, h2⟩ := ihf w (fun m hm => h m (by simp [subnodes, hm]))
      obtain ⟨a1, w2, ha, h3, h4⟩ := iha w1 (fun m hm hc => by
        rw [codeSnippet_congr fs w w1 m h1 h2]
        exact h m (by simp [subnodes, hm]) hc)
      refine ⟨.callExpr f1 lp a1 el rp, w2, ?_, h3.trans h1, h4.trans h2⟩
      rw [walker_walk_call_noMatch fs w f lp args el rp hm, hf]
      simp only [Option.bind]
      rw [ha]
    | true =>
      have hs := h _ (by simp [subnodes]) hm
      obtain ⟨x, sel, rfl, hx, hsel⟩ := isReadAllCall_shape _ _ _ _ _ _ hm
      obtain ⟨p, hp⟩ := Option.isSome_iff_exists.1 hs
      refine ⟨.callExpr (.selectorExpr (.ident { x with Name := "io2" }) sel) lp
          (args ++ [.ident (NewIdent p)]) el rp, { w with hasReadAll := true }, ?_, rfl, rfl⟩
      rw [walker_walk_call_match fs w x sel lp args el rp hx hsel, hp]
      rfl
  · intro tag p e cs ih w h
    obtain ⟨c1, w1, hc, h1, h2⟩ := ih w (fun m hm => h m (by simp [subnodes, hm]))
    exact ⟨_, w1, by rw [walker_walk_other, hc]; rfl, h1, h2⟩
  · intro w _
    exact ⟨[], w, rfl, rfl, rfl⟩
  · intro n ns ihn ihns w h
    obtain ⟨n1, w1, hn, h1, h2⟩ := ihn w (fun m hm => h m (by simp [subnodesList, hm]))
    obtain ⟨ns1, w2, hns, h3, h4⟩ := ihns w1 (fun m hm hc => by
      rw [codeSnippet_congr fs w w1 m h1 h2]
      exact h m (by simp [subnodesList, hm]) hc)
    refine ⟨n1 :: ns1, w2, ?_, h3.trans h1, h4.trans h2⟩
    rw [walker_walkList_cons, hn]
    simp only [Option.bind]
    rw [hns]

/-! ## C1 -/

/-- C1, as stated, fails: in `io.ReadAll(f(io.ReadAll(r)))` there are two calls
`io.ReadAll(...)` and no call `io2.ReadAll(...)`; after the walk there is one call
`io2.ReadAll(...)` and the inner call `io.ReadAll(r)` is still there. -/
theorem C1_nested_call_counterexample :
    countCalls "io" exNested = 2 ∧ countCalls "io2" exNested = 0 ∧
    (astWalk (Walker.Visit exNestedFs) exWalker exNested).map
      (fun r => (countCalls "io2" r.1, countCalls "io" r.1)) = some (1, 1) := by
  decide

/-- C1 (amended): when no call `io.ReadAll(...)` lies inside the arguments of
another one and the tree has no call `io2.ReadAll(...)`, the walk with
`Walker.Visit` turns each of the N calls `io.ReadAll(...)` into a call
`io2.ReadAll(...)`. The walk completes whenever the provenance text of every
call `io.ReadAll(...)` can be computed, and after a completed walk there are
exactly N calls `io2.ReadAll(...)` and no call `io.ReadAll(...)` anywhere in the
tree. -/
theorem C1_walk_rewrites_every_call (fs : FileSystem) (w : Walker) (t : Node)
    (hnest : nestFree t = true) (hio2 : countCalls "io2" t = 0) :
    ((∀ m ∈ subnodes t, isReadAllCall "io" m = true → (w.codeSnippet fs m).isSome = true) →
      ∃ t1 w1, astWalk (Walker.Visit fs) w t = some (t1, w1)) ∧
    (∀ t1 w1, astWalk (Walker.Visit fs) w t = some (t1, w1) →
      countCalls "io2" t1 = countCalls "io" t ∧ countCalls "io" t1 = 0) := by
  constructor
  · intro hs
    obtain ⟨t1, w1, h, -, -⟩ := (walker_walk_succeeds fs).1 t w hs
    exact ⟨t1, w1, h⟩
  · intro t1 w1 hwalk
    have h := (walker_walk_counts fs).1 t w t1 w1 hnest hwalk
    exact ⟨by rw [h.2, hio2, Nat.zero_add], h.1⟩

/-- C1 witness: the two calls of `io.ReadAll(r); io.ReadAll(s)`. -/
theorem C1_walk_rewrites_every_call_witness :
    countCalls "io" exTwo = 2 ∧
    (∃ t1 w1, astWalk (Walker.Visit exTwoFs) exWalker exTwo = some (t1, w1)) ∧
    (countCalls "io2" exTwoAfter = countCalls "io" exTwo ∧ countCalls "io" exTwoAfter = 0) :=
  ⟨by decide,
   (C1_walk_rewrites_every_call exTwoFs exWalker exTwo (by decide) (by decide)).1 (by decide),
   (C1_walk_rewrites_every_call exTwoFs exWalker exTwo (by decide) (by decide)).2
     exTwoAfter { exWalker with hasReadAll := true } (by rfl)⟩

/-! ## C2 -/

/-- C2, as stated, fails: the qualifier `io` of `io.ReadAll(r)` is resolved to a
local variable (`Obj` is a `Var` object), and `Walker.Visit` rewrites the call all
the same: the qualifier becomes `io2`, an argument is appended and `hasReadAll`
is set. -/
theorem C2_shadowed_qualifier_counterexample :
    Walker.Visit exTwoFs exWalker (some (exCall 1 (some ObjKind.Var) "r")) =
      some (.skip (exCallAfter 1 (some ObjKind.Var) "r" exSnippet)
        { exWalker with hasReadAll := true }) := by
  rfl

/-- C2 (amended): `Walker.Visit` recognises the qualifier by its spelling alone.
A call `io.ReadAll(...)` is rewritten whatever its identifier `io` is resolved to
(`obj`, a local declaration included): the qualifier becomes `io2` and keeps its
object, one argument is appended, `hasReadAll` is set, and the provenance text is
the one computed for the unresolved identifier. -/
theorem C2_visit_matches_by_spelling (fs : FileSystem) (w : Walker) (namePos : Int)
    (obj : Option ObjKind) (selPos : Int) (selObj : Option ObjKind) (lp : Int)
    (args : List Node) (el rp : Int) :
    Walker.Visit fs w (some (.callExpr (.selectorExpr
        (.ident { NamePos := namePos, Name := "io", Obj := obj })
        { NamePos := selPos, Name := "ReadAll", Obj := selObj }) lp args el rp)) =
      (w.codeSnippet fs (.callExpr (.selectorExpr
        (.ident { NamePos := namePos, Name := "io", Obj := none })
        { NamePos := selPos, Name := "ReadAll", Obj := selObj }) lp args el rp)).bind
        (fun p => some (.skip
          (.callExpr (.selectorExpr
            (.ident { NamePos := namePos, Name := "io2", Obj := obj })
            { NamePos := selPos, Name := "ReadAll", Obj := selObj }) lp
            (args ++ [.ident (NewIdent p)]) el rp)
          { w with hasReadAll := true })) := by
  rw [walker_visit_match fs w _ _ lp args el rp rfl rfl]
  have hsnip : w.codeSnippet fs (.callExpr (.selectorExpr
        (.ident { NamePos := namePos, Name := "io", Obj := obj })
        { NamePos := selPos, Name := "ReadAll", Obj := selObj }) lp args el rp) =
      w.codeSnippet fs (.callExpr (.selectorExpr
        (.ident { NamePos := namePos, Name := "io", Obj := none })
        { NamePos := selPos, Name := "ReadAll", Obj := selObj }) lp args el rp) := rfl
  rw [hsnip]
  cases w.codeSnippet fs (.callExpr (.selectorExpr
        (.ident { NamePos := namePos, Name := "io", Obj := none })
        { NamePos := selPos, Name := "ReadAll", Obj := selObj }) lp args el rp) <;> rfl

/-! ## C3 -/

/-- C3: for a matched call `io.ReadAll(args)` with provenance text `p`, `Visit`
returns nil and leaves the call with qualifier `io2`, the same selected name and
the arguments `args ++ [p]`; `ast.Walk` therefore returns that call as it is,
without walking into the arguments. -/
theorem C3_matched_call_is_rewritten (fs : FileSystem) (w : Walker) (x sel : Ident)
    (lp : Int) (args : List Node) (el rp : Int) (p : String)
    (hx : x.Name = "io") (hs : sel.Name = "ReadAll")
    (hp : w.codeSnippet fs (.callExpr (.selectorExpr (.ident x) sel) lp args el rp) = some p) :
    Walker.Visit fs w (some (.callExpr (.selectorExpr (.ident x) sel) lp args el rp)) =
      some (.skip
        (.callExpr (.selectorExpr (.ident { x with Name := "io2" }) sel) lp
          (args ++ [.ident (NewIdent p)]) el rp)
        { w with hasReadAll := true }) ∧
    astWalk (Walker.Visit fs) w (.callExpr (.selectorExpr (.ident x) sel) lp args el rp) =
      some (.callExpr (.selectorExpr (.ident { x with Name := "io2" }) sel) lp
          (args ++ [.ident (NewIdent p)]) el rp,
        { w with hasReadAll := true }) := by
  constructor
  · rw [walker_visit_match fs w x sel lp args el rp hx hs, hp]
  · rw [walker_walk_call_match fs w x sel lp args el rp hx hs, hp]
    rfl

/-- C3 witness: the call `io.ReadAll(r)` at the start of `a.go`. -/
theorem C3_matched_call_is_rewritten_witness :
    Walker.Visit exTwoFs exWalker (some (exCall 1 none "r")) =
      some (.skip (exCallAfter 1 none "r" exSnippet) { exWalker with hasReadAll := true }) ∧
    astWalk (Walker.Visit exTwoFs) exWalker (exCall 1 none "r") =
      some (exCallAfter 1 none "r" exSnippet, { exWalker with hasReadAll := true }) :=
  C3_matched_call_is_rewritten exTwoFs exWalker { NamePos := 1, Name := "io", Obj := none }
    { NamePos := 1 + 3, Name := "ReadAll", Obj := none } (1 + 10)
    [.ident { NamePos := 1 + 11, Name := "r", Obj := none }] 0 (1 + 12) exSnippet rfl rfl
    (by rfl)

/-! ## C5 -/

/-- C5: on a file whose tree has no call `io.ReadAll(...)` the per-file pipeline
changes nothing. It either returns early at `usesIoPackage` or prints the file
it was given, tree and import list as they were, with `hasReadAll` still false
(so `addNewIoImport` is not run). -/
theorem C5_no_call_no_change (fs : FileSystem) (fset : FileSet) (path : String) (f : File)
    (h : countCalls "io" f.Root = 0) :
    rewriteFile fs fset path f =
      if Walker.usesIoPackage f then
        some (.emitted f
          { fset := fset, addNewIoPackage := false, hasReadAll := false, src := path }
          { UsesOtherIo := hasOtherIo f.Root })
      else some .skipped := by
  unfold rewriteFile
  by_cases hg : Walker.usesIoPackage f = true
  · simp only [hg, Bool.not_true, Bool.false_eq_true, if_false, if_true]
    rw [ioChecker_walk.1 f.Root]
    simp only []
    rw [(walker_walk_unchanged fs).1 f.Root _ h]
    simp
  · simp [hg]

/-- C5 witness: a file that imports `io` and only uses `io.EOF`. -/
theorem C5_no_call_no_change_witness :
    Walker.usesIoPackage exEofFile = true ∧
    rewriteFile exNoFs exFset "a.go" exEofFile =
      if Walker.usesIoPackage exEofFile then
        some (.emitted exEofFile
          { fset := exFset, addNewIoPackage := false, hasReadAll := false, src := "a.go" }
          { UsesOtherIo := hasOtherIo exEofFile.Root })
      else some .skipped :=
  ⟨by decide, C5_no_call_no_change exNoFs exFset "a.go" exEofFile (by decide)⟩

/-! ## C9 -/

/-- C9: `ast.Walk` with a fresh `IoUsageChecker` returns the tree unchanged, and
afterwards `UsesOtherIo` is true exactly when some node of the tree is a selector
expression `io.X` with `X` different from `ReadAll`. -/
theorem C9_usage_checker_walk (t : Node) :
    ∃ s : IoUsageChecker,
      astWalk IoUsageChecker.Visit { UsesOtherIo := false } t = some (t, s) ∧
      (s.UsesOtherIo = true ↔ ∃ m ∈ subnodes t, isOtherIoSelector m = true) := by
  refine ⟨{ UsesOtherIo := false || hasOtherIo t }, ioChecker_walk.1 t _, ?_⟩
  rw [Bool.false_or]
  exact hasOtherIo_iff.1 t

/-! ## C10 -/

/-- C10, as stated, fails: the first pass over `io.ReadAll(f(io.ReadAll(r)))`
leaves one call `io2.ReadAll(...)`; a second pass with a fresh walker over that
result rewrites the inner call, so there are two, and sets `hasReadAll`. -/
theorem C10_second_pass_counterexample :
    (astWalk (Walker.Visit exNestedFs) exWalker exNested).bind (fun r =>
      (astWalk (Walker.Visit exNestedFs) exWalker r.1).map (fun r2 =>
        (countCalls "io2" r.1, countCalls "io2" r2.1, r2.2.hasReadAll))) =
      some (1, 2, true) := by
  decide

/-- C10 (amended): when no call `io.ReadAll(...)` of `t` lies inside the arguments
of another one, a second pass over the result of a completed pass changes
nothing: it returns the same tree and leaves the walker, `hasReadAll` included,
as it was. -/
theorem C10_second_pass_is_identity (fs : FileSystem) (w w1 w2 : Walker) (t t1 : Node)
    (hnest : nestFree t = true)
    (hwalk : astWalk (Walker.Visit fs) w t = some (t1, w1)) :
    astWalk (Walker.Visit fs) w2 t1 = some (t1, w2) :=
  (walker_walk_unchanged fs).1 t1 w2 ((walker_walk_counts fs).1 t w t1 w1 hnest hwalk).1

/-- C10 witness: a second pass over the rewritten `io2.ReadAll(r); io2.ReadAll(s)`
with a fresh walker. -/
theorem C10_second_pass_is_identity_witness :
    astWalk (Walker.Visit exTwoFs) exWalker exTwo =
      some (exTwoAfter, { exWalker with hasReadAll := true }) ∧
    astWalk (Walker.Visit exTwoFs) exWalker exTwoAfter = some (exTwoAfter, exWalker) :=
  ⟨by rfl,
   C10_second_pass_is_identity exTwoFs exWalker { exWalker with hasReadAll := true } exWalker
     exTwo exTwoAfter (by decide) (by rfl)⟩

/-! ## C6 -/

/-- A slice expression within the length of the slice yields the bytes between
its two indices. -/
theorem slice_in_range (b : ByteSlice) (lo hi : Int) (h0 : 0 ≤ lo) (h1 : lo ≤ hi)
    (h2 : hi ≤ b.len) :
    ∃ text : List Char, b.slice lo hi = some text ∧ text.length = (hi - lo).toNat ∧
      ∀ i : Nat, i < text.length → text[i]? = b.elems[lo.toNat + i]? := by
  have hcap : hi ≤ b.cap := by
    simp only [ByteSlice.len, ByteSlice.cap] at *
    omega
  have hs : b.slice lo hi =
      some (((b.elems ++ b.spare).drop lo.toNat).take (hi - lo).toNat) := by
    simp only [ByteSlice.slice, h0, h1, hcap, and_self, if_true]
  refine ⟨_, hs, ?_, ?_⟩
  · simp only [ByteSlice.len] at h2
    simp only [List.length_take, List.length_drop, List.length_append]
    omega
  · intro i hi2
    simp only [ByteSlice.len] at h2
    simp only [List.length_take, List.length_drop, List.length_append] at hi2
    rw [List.getElem?_take_of_lt (by omega), List.getElem?_drop,
      List.getElem?_append_left (by omega)]

/-- C6: for a node and source bytes with `1 <= Pos <= End <= len(src)+1`,
`getStringVersion` returns a double quote, the printed position of `Pos`, the
token `NEW_LINE`, the `End - Pos` bytes of `src` from index `Pos-1` on, each
copied as it is, and a double quote. The printed position is `file:line:col`
when the position has a file name, a positive line and a column. -/
theorem C6_getStringVersion_format (n : Node) (src : ByteSlice) (fset : FileSet)
    (h1 : 1 ≤ n.Pos) (h2 : n.Pos ≤ n.End) (h3 : n.End ≤ src.len + 1) :
    (∃ text : List Char,
      getStringVersion n src fset =
        some ("\"" ++ (fset.Position n.Pos).String ++ "NEW_LINE" ++ String.mk text ++ "\"") ∧
      text.length = (n.End - n.Pos).toNat ∧
      ∀ i : Nat, i < text.length → text[i]? = src.elems[(n.Pos - 1).toNat + i]?) ∧
    (∀ p : Position, p.Filename ≠ "" → 0 < p.Line → p.Column ≠ 0 →
      p.String = p.Filename ++ ":" ++ toString p.Line ++ ":" ++ toString p.Column) := by
  constructor
  · obtain ⟨text, hs, hl, hb⟩ :=
      slice_in_range src (n.Pos - 1) (n.End - 1) (by omega) (by omega) (by omega)
    refine ⟨text, ?_, ?_, hb⟩
    · simp only [getStringVersion, hs, String.append_assoc]
    · rw [hl]
      congr 1
      omega
  · intro p hf hl hc
    have hne : p.Filename ++ (":" ++ (toString p.Line ++ (":" ++ toString p.Column))) ≠ "" := by
      intro h
      have hlen := congrArg String.length h
      simp only [String.length_append] at hlen
      have h1 : ":".length = 1 := rfl
      have h0 : "".length = 0 := rfl
      omega
    simp only [Position.String, Position.IsValid, gt_iff_lt, hl, decide_True, if_true, hf,
      ne_eq, not_false_eq_true, hc, hne, if_false, String.append_assoc]

/-- C6 witness: the first call of `io.ReadAll(r); io.ReadAll(s)`, at bytes 0 to 12. -/
theorem C6_getStringVersion_format_witness :
    (∃ text : List Char,
      getStringVersion (exCall 1 none "r") exTwoSrc exFset =
        some ("\"" ++ (exFset.Position (exCall 1 none "r").Pos).String ++ "NEW_LINE" ++
          String.mk text ++ "\"") ∧
      text.length = ((exCall 1 none "r").End - (exCall 1 none "r").Pos).toNat ∧
      ∀ i : Nat, i < text.length →
        text[i]? = exTwoSrc.elems[((exCall 1 none "r").Pos - 1).toNat + i]?) ∧
    (∀ p : Position, p.Filename ≠ "" → 0 < p.Line → p.Column ≠ 0 →
      p.String = p.Filename ++ ":" ++ toString p.Line ++ ":" ++ toString p.Column) :=
  C6_getStringVersion_format (exCall 1 none "r") exTwoSrc exFset (by decide) (by decide)
    (by decide)

/-! ## C4 -/

/-- The only import spec with name `io2` and the replacement path is `io2Spec`. -/
theorem importName_eq_io2 (s : ImportSpec)
    (h : importName s = "io2" ∧ importPath s = "github.com/AdamKorcz/bugdetectors/io") :
    s = io2Spec := by
  obtain ⟨name, path⟩ := s
  cases name with
  | none => simp [importName] at h
  | some n =>
    simp only [importName, importPath] at h
    simp [io2Spec, h.1, h.2]

/-- The test of `AddNamedImport` for the `io2` import is list membership. -/
theorem imports_io2_iff (g : File) :
    imports g "io2" "github.com/AdamKorcz/bugdetectors/io" = true ↔ io2Spec ∈ g.Imports := by
  simp only [imports, List.any_eq_true, decide_eq_true_eq]
  constructor
  · rintro ⟨s, hs, h⟩
    rw [← importName_eq_io2 s h]
    exact hs
  · intro h
    exact ⟨io2Spec, h, rfl, rfl⟩

/-- The import list after `AddNamedImport` of the `io2` import. -/
theorem addNamedImport_io2_imports (g : File) :
    (AddNamedImport g "io2" "github.com/AdamKorcz/bugdetectors/io").Imports =
      if io2Spec ∈ g.Imports then g.Imports else g.Imports ++ [io2Spec] := by
  unfold AddNamedImport
  by_cases h : io2Spec ∈ g.Imports
  · rw [if_pos h, if_pos ((imports_io2_iff g).2 h)]
  · have h2 : imports g "io2" "github.com/AdamKorcz/bugdetectors/io" = false := by
      cases hb : imports g "io2" "github.com/AdamKorcz/bugdetectors/io" with
      | false => rfl
      | true => exact absurd ((imports_io2_iff g).1 hb) h
    rw [if_neg h, h2]
    rfl

/-- After `AddNamedImport` the `io2` import is in the list. -/
theorem addNamedImport_io2_mem (g : File) :
    io2Spec ∈ (AddNamedImport g "io2" "github.com/AdamKorcz/bugdetectors/io").Imports := by
  rw [addNamedImport_io2_imports]
  by_cases h : io2Spec ∈ g.Imports <;> simp [h]

/-- `AddNamedImport` keeps every import that was in the list. -/
theorem addNamedImport_io2_keeps (g : File) (s : ImportSpec) (hs : s ∈ g.Imports) :
    s ∈ (AddNamedImport g "io2" "github.com/AdamKorcz/bugdetectors/io").Imports := by
  rw [addNamedImport_io2_imports]
  by_cases h : io2Spec ∈ g.Imports <;> simp [h, hs]

/-- After `AddNamedImport` the `io2` import occurs once, if it occurred at most
once before. -/
theorem addNamedImport_io2_count (g : File) (h : g.Imports.count io2Spec ≤ 1) :
    (AddNamedImport g "io2" "github.com/AdamKorcz/bugdetectors/io").Imports.count io2Spec = 1 := by
  rw [addNamedImport_io2_imports]
  by_cases hm : io2Spec ∈ g.Imports
  · simp only [hm, if_true]
    have := List.count_pos_iff.2 hm
    omega
  · simp only [hm, if_false, List.count_append, List.count_eq_zero_of_not_mem hm]
    simp

/-- `DeleteImport` of `io` leaves the occurrences of the `io2` import alone. -/
theorem deleteImport_io_count (g : File) :
    (DeleteImport g "io").Imports.count io2Spec = g.Imports.count io2Spec := by
  simp only [DeleteImport, DeleteNamedImport]
  rw [List.count_filter]
  decide

/-- After `DeleteImport` of `io` no unnamed import of `io` is in the list. -/
theorem deleteImport_io_mem (g : File) (s : ImportSpec) (hs : s ∈ (DeleteImport g "io").Imports) :
    ¬ (importName s = "" ∧ importPath s = "io") := by
  simp only [DeleteImport, DeleteNamedImport, List.mem_filter, Bool.not_eq_true',
    decide_eq_false_iff_not] at hs
  exact hs.2

/-- `UsesImport` is true only for a file that has an import of the path. -/
theorem usesImport_has_spec (f : File) (path : String) (h : UsesImport f path = true) :
    ∃ s ∈ f.Imports, importPath s = path := by
  unfold UsesImport at h
  cases hs : importSpec f path with
  | none => simp [hs] at h
  | some spec =>
    unfold importSpec at hs
    exact ⟨spec, List.mem_of_find?_eq_some hs, by simpa using List.find?_some hs⟩

/-- The import list after `addNewIoImport` depends on the import list alone. -/
theorem addNewIoImport_imports_congr (w : Walker) (g g2 : File)
    (h : g.Imports = g2.Imports) :
    (w.addNewIoImport g).Imports = (w.addNewIoImport g2).Imports := by
  obtain ⟨i1, r1⟩ := g
  obtain ⟨i2, r2⟩ := g2
  simp only at h
  subst h
  simp only [Walker.addNewIoImport, AddNamedImport, DeleteImport, DeleteNamedImport, imports]
  split_ifs <;> rfl

/-- A run of the pipeline that printed a file with `hasReadAll` set passed
`usesIoPackage` and ran `addNewIoImport` with `addNewIoPackage = UsesOtherIo`. -/
theorem rewriteFile_emitted (fs : FileSystem) (fset : FileSet) (path : String) (f f1 : File)
    (w : Walker) (io : IoUsageChecker)
    (hrun : rewriteFile fs fset path f = some (.emitted f1 w io)) (hread : w.hasReadAll = true) :
    Walker.usesIoPackage f = true ∧
    f1.Imports = (Walker.addNewIoImport w f).Imports ∧
    w.addNewIoPackage = io.UsesOtherIo := by
  unfold rewriteFile at hrun
  by_cases hg : Walker.usesIoPackage f = true
  · refine ⟨hg, ?_⟩
    simp only [hg, Bool.not_true, Bool.false_eq_true, if_false] at hrun
    rw [ioChecker_walk.1 f.Root] at hrun
    simp only [] at hrun
    cases hw : astWalk (Walker.Visit fs)
        { fset := fset, addNewIoPackage := false, hasReadAll := false, src := path } f.Root with
    | none => simp [hw] at hrun
    | some r =>
      obtain ⟨root2, w2⟩ := r
      simp only [hw] at hrun
      by_cases hr : w2.hasReadAll = true
      · simp only [hr, if_true, Option.some.injEq, Outcome.emitted.injEq] at hrun
        obtain ⟨h1, h2, h3⟩ := hrun
        rw [← h1, ← h2, ← h3]
        exact ⟨addNewIoImport_imports_congr _ _ _ rfl, rfl⟩
      · simp only [hr, if_false, Option.some.injEq, Outcome.emitted.injEq] at hrun
        obtain ⟨-, rfl, -⟩ := hrun
        exact absurd hread hr
  · simp [hg] at hrun

/-- C4 fails on the code: the file imports the package as `io "io"` and its
only use of `io` is one call `io.ReadAll(r)`. The call is rewritten (`hasReadAll`
is true), `UsesOtherIo` is false, no selector with qualifier `io` is left, and
the import of `"io"` is still in the import list that is printed, next to the
new `io2` import. For the same file with the import written `"io"` the import
is removed, as the claim says. -/
theorem C4_named_import_is_kept :
    (rewriteFile exNoFs exFset "a.go" exNamedImportFile).bind Outcome.ioSummary =
      some ([{ Name := some "io", Path := "io" }, io2Spec], true, false, false) ∧
    (rewriteFile exNoFs exFset "a.go" exPlainFile).bind Outcome.ioSummary =
      some ([io2Spec], true, false, false) := by
  decide

/-- How far the pipeline reaches on every file of which it has rewritten a call
(`hasReadAll` is true): the printed import list holds the `io2` import. If
`UsesOtherIo` is true, every import of the input is kept and an import of `"io"`
is among them. If it is false, the imports of `"io"` that `DeleteImport`
reaches, those without a name of their own, are gone. If the input held the
`io2` import at most once, the output holds it exactly once. -/
theorem rewriteFile_imports_of_unnamed_io (fs : FileSystem) (fset : FileSet) (path : String)
    (f f1 : File) (w : Walker) (io : IoUsageChecker)
    (hrun : rewriteFile fs fset path f = some (.emitted f1 w io)) (hread : w.hasReadAll = true) :
    io2Spec ∈ f1.Imports ∧
    (io.UsesOtherIo = true →
      (∀ s ∈ f.Imports, s ∈ f1.Imports) ∧ ∃ s ∈ f1.Imports, importPath s = "io") ∧
    (io.UsesOtherIo = false → ∀ s ∈ f1.Imports, ¬ (importName s = "" ∧ importPath s = "io")) ∧
    (f.Imports.count io2Spec ≤ 1 → f1.Imports.count io2Spec = 1) := by
  obtain ⟨hg, himp, hadd⟩ := rewriteFile_emitted fs fset path f f1 w io hrun hread
  rw [himp]
  unfold Walker.addNewIoImport
  cases hio : io.UsesOtherIo with
  | true =>
    rw [hio] at hadd
    simp only [hadd, if_true]
    refine ⟨addNamedImport_io2_mem _, fun _ => ⟨?_, ?_⟩, fun h => absurd h (by simp), ?_⟩
    · intro s hs
      exact addNamedImport_io2_keeps _ s hs
    · obtain ⟨s, hs, hp⟩ := usesImport_has_spec f "io" hg
      exact ⟨s, addNamedImport_io2_keeps _ s hs, hp⟩
    · intro hc
      exact addNamedImport_io2_count _ hc
  | false =>
    rw [hio] at hadd
    simp only [hadd, Bool.false_eq_true, if_false]
    refine ⟨addNamedImport_io2_mem _, fun h => absurd h (by simp), fun _ => ?_, ?_⟩
    · intro s hs
      rw [addNamedImport_io2_imports] at hs
      by_cases hm : io2Spec ∈ (DeleteImport f "io").Imports
      · rw [if_pos hm] at hs
        exact deleteImport_io_mem _ s hs
      · rw [if_neg hm, List.mem_append, List.mem_singleton] at hs
        rcases hs with hs | hs
        · exact deleteImport_io_mem _ s hs
        · subst hs
          decide
    · intro hc
      apply addNamedImport_io2_count
      rw [deleteImport_io_count]
      exact hc

/-! ## C7 -/

/-- C7 fails on the code: for the call `io.ReadAll(f("a"))` the provenance text
has the two quotes of `"a"` between its outer quotes, not escaped, and for a call
written on two lines it has a raw newline; neither text is a well-formed
single-line string literal (the text of `io.ReadAll(r)` is one). -/
theorem C7_provenance_text_not_a_literal :
    getStringVersion exQuoteCall exQuoteSrc exFset =
      some "\"a.go:1:1NEW_LINEio.ReadAll(f(\"a\"))\"" ∧
    isSingleLineStringLiteral "\"a.go:1:1NEW_LINEio.ReadAll(f(\"a\"))\"" = false ∧
    getStringVersion exTwoLineCall exTwoLineSrc exFset =
      some "\"a.go:1:1NEW_LINEio.ReadAll(\nr)\"" ∧
    isSingleLineStringLiteral "\"a.go:1:1NEW_LINEio.ReadAll(\nr)\"" = false ∧
    isSingleLineStringLiteral exSnippet = true := by
  decide

/-! ## C8 -/

/-- C8 fails on the code in its last part: when the file cannot be read the call
`io.ReadAll(r)` is still rewritten (qualifier `io2`, `hasReadAll` set, one argument
appended after `r`), but the appended argument is an identifier whose name is the
bare text `Could not generate code`, without quotes, which is not a string
literal. -/
theorem C8_placeholder_is_not_quoted :
    Walker.Visit exNoFs exWalker (some (exCall 1 none "r")) =
      some (.skip (exCallAfter 1 none "r" "Could not generate code")
        { exWalker with hasReadAll := true }) ∧
    isSingleLineStringLiteral "Could not generate code" = false := by
  exact ⟨rfl, by decide⟩

/-- The flag after a completed walk: it is set when it was set before or the tree
has a call `io.ReadAll(...)`. -/
theorem walker_walk_flag (fs : FileSystem) :
    (∀ n, ∀ (w : Walker) (n1 : Node) (w1 : Walker),
      astWalk (Walker.Visit fs) w n = some (n1, w1) →
      w1.hasReadAll = (w.hasReadAll || decide (0 < countCalls "io" n))) ∧
    (∀ ns, ∀ (w : Walker) (ns1 : List Node) (w1 : Walker),
      walkList (Walker.Visit fs) w ns = some (ns1, w1) →
      w1.hasReadAll = (w.hasReadAll || decide (0 < countCallsList "io" ns))) := by
  apply Node.induct
  · intro id w n1 w1 h
    rw [walker_walk_ident] at h
    cases h
    simp [countCalls]
  · intro x sel ih w n1 w1 h
    rw [walker_walk_selector] at h
    simp only [Option.bind_eq_some, Option.some.injEq, Prod.mk.injEq] at h
    obtain ⟨⟨x1, w2⟩, hx, -, h3⟩ := h
    subst h3
    simpa [countCalls] using ih w x1 w2 hx
  · intro f lp args el rp ihf iha w n1 w1 h
    cases hm : isReadAllCall "io" (.callExpr f lp args el rp) with
    | false =>
      rw [walker_walk_call_noMatch fs w f lp args el rp hm] at h
      simp only [Option.bind_eq_some, Option.some.injEq, Prod.mk.injEq] at h
      obtain ⟨⟨f1, w2⟩, hf, ⟨a1, w3⟩, ha, -, h3⟩ := h
      subst h3
      have e1 := ihf w f1 w2 hf
      have e2 := iha w2 a1 w3 ha
      simp only at e2
      rw [e2, e1]
      simp only [countCalls, hm, Bool.false_eq_true, if_false, Nat.zero_add]
      by_cases c1 : 0 < countCalls "io" f <;> by_cases c2 : 0 < countCallsList "io" args <;>
        simp [c1, c2]
    | true =>
      obtain ⟨x, sel, rfl, hx, hs⟩ := isReadAllCall_shape _ _ _ _ _ _ hm
      rw [walker_walk_call_match fs w x sel lp args el rp hx hs] at h
      simp only [Option.bind_eq_some, Option.some.injEq, Prod.mk.injEq] at h
      obtain ⟨p, -, -, h3⟩ := h
      subst h3
      simp [countCalls, hm]
  · intro tag p e cs ih w n1 w1 h
    rw [walker_walk_other] at h
    simp only [Option.bind_eq_some, Option.some.injEq, Prod.mk.injEq] at h
    obtain ⟨⟨c1, w2⟩, hc, -, h3⟩ := h
    subst h3
    simpa [countCalls] using ih w c1 w2 hc
  · intro w ns1 w1 h
    simp only [walkList, Option.some.injEq, Prod.mk.injEq] at h
    obtain ⟨-, rfl⟩ := h
    simp [countCallsList]
  · intro n ns ihn ihns w ns1 w1 h
    rw [walker_walkList_cons] at h
    simp only [Option.bind_eq_some, Option.some.injEq, Prod.mk.injEq] at h
    obtain ⟨⟨m1, w2⟩, hm, ⟨ms1, w3⟩, hms, -, h3⟩ := h
    subst h3
    have e1 := ihn w m1 w2 hm
    have e2 := ihns w2 ms1 w3 hms
    simp only at e2
    rw [e2, e1]
    simp only [countCallsList]
    by_cases c1 : 0 < countCalls "io" n <;> by_cases c2 : 0 < countCallsList "io" ns <;>
      simp [c1, c2]

/-- The count of calls is positive exactly when some node is such a call. -/
theorem countCalls_pos_iff (q : String) (t : Node) :
    0 < countCalls q t ↔ ∃ m ∈ subnodes t, isReadAllCall q m = true := by
  rw [(countCalls_eq_countP q).1 t, List.countP_pos_iff]

/-! ## C11 -/

/-- C11: after a completed `ast.Walk` with a walker whose `hasReadAll` starts
false, `hasReadAll` is true exactly when the original tree has a call
`io.ReadAll(...)` at some node, nested ones counted: a nested match always has a
match around it that sets the flag. -/
theorem C11_flag_iff_some_call (fs : FileSystem) (w w1 : Walker) (t t1 : Node)
    (hfresh : w.hasReadAll = false)
    (hwalk : astWalk (Walker.Visit fs) w t = some (t1, w1)) :
    (w1.hasReadAll = true ↔ 1 ≤ countCalls "io" t) ∧
    (w1.hasReadAll = true ↔ ∃ m ∈ subnodes t, isReadAllCall "io" m = true) := by
  have h := (walker_walk_flag fs).1 t w t1 w1 hwalk
  rw [hfresh, Bool.false_or] at h
  have h1 : w1.hasReadAll = true ↔ 1 ≤ countCalls "io" t := by
    rw [h, decide_eq_true_eq]
    exact Iff.rfl
  exact ⟨h1, h1.trans (countCalls_pos_iff "io" t)⟩

/-- C11 witness: the nested calls of `io.ReadAll(f(io.ReadAll(r)))`; the walk
visits the outer call only and the flag is set. -/
theorem C11_flag_iff_some_call_witness :
    ((true = true ↔ 1 ≤ countCalls "io" exNested) ∧
      (true = true ↔ ∃ m ∈ subnodes exNested, isReadAllCall "io" m = true)) ∧
    countCalls "io" exNested = 2 :=
  ⟨C11_flag_iff_some_call exNestedFs exWalker { exWalker with hasReadAll := true } exNested
    (.callExpr (.selectorExpr (.ident { NamePos := 1, Name := "io2", Obj := none })
        { NamePos := 4, Name := "ReadAll", Obj := none })
      11 [.callExpr (.ident { NamePos := 12, Name := "f", Obj := none }) 13 [exInner] 0 27,
          .ident (NewIdent "\"a.go:1:1NEW_LINEio.ReadAll(f(io.ReadAll(r)))\"")] 0 28)
    rfl (by rfl), by decide⟩

/-- A completed walk changes nothing but the qualifier and the argument list of
the calls `io.ReadAll(...)` it rewrites. -/
theorem walker_walk_onlyRewrites (fs : FileSystem) :
    (∀ n, ∀ (w : Walker) (n1 : Node) (w1 : Walker),
      astWalk (Walker.Visit fs) w n = some (n1, w1) → OnlyRewrites n n1) ∧
    (∀ ns, ∀ (w : Walker) (ns1 : List Node) (w1 : Walker),
      walkList (Walker.Visit fs) w ns = some (ns1, w1) → OnlyRewritesList ns ns1) := by
  apply Node.induct
  · intro id w n1 w1 h
    rw [walker_walk_ident] at h
    cases h
    simp [OnlyRewrites]
  · intro x sel ih w n1 w1 h
    rw [walker_walk_selector] at h
    simp only [Option.bind_eq_some, Option.some.injEq, Prod.mk.injEq] at h
    obtain ⟨⟨x1, w2⟩, hx, h2, -⟩ := h
    subst h2
    rw [OnlyRewrites]
    exact ⟨x1, rfl, ih w x1 w2 hx⟩
  · intro f lp args el rp ihf iha w n1 w1 h
    rw [OnlyRewrites]
    cases hm : isReadAllCall "io" (.callExpr f lp args el rp) with
    | false =>
      rw [walker_walk_call_noMatch fs w f lp args el rp hm] at h
      simp only [Option.bind_eq_some, Option.some.injEq, Prod.mk.injEq] at h
      obtain ⟨⟨f1, w2⟩, hf, ⟨a1, w3⟩, ha, h2, -⟩ := h
      subst h2
      exact Or.inr ⟨rfl, f1, a1, rfl, ihf w f1 w2 hf, iha w2 a1 w3 ha⟩
    | true =>
      obtain ⟨x, sel, rfl, hx, hs⟩ := isReadAllCall_shape _ _ _ _ _ _ hm
      rw [walker_walk_call_match fs w x sel lp args el rp hx hs] at h
      simp only [Option.bind_eq_some, Option.some.injEq, Prod.mk.injEq] at h
      obtain ⟨p, -, h2, -⟩ := h
      subst h2
      exact Or.inl ⟨rfl, x, sel, p, rfl, rfl⟩
  · intro tag p e cs ih w n1 w1 h
    rw [walker_walk_other] at h
    simp only [Option.bind_eq_some, Option.some.injEq, Prod.mk.injEq] at h
    obtain ⟨⟨c1, w2⟩, hc, h2, -⟩ := h
    subst h2
    rw [OnlyRewrites]
    exact ⟨c1, rfl, ih w c1 w2 hc⟩
  · intro w ns1 w1 h
    simp only [walkList, Option.some.injEq, Prod.mk.injEq] at h
    obtain ⟨rfl, -⟩ := h
    simp [OnlyRewritesList]
  · intro n ns ihn ihns w ns1 w1 h
    rw [walker_walkList_cons] at h
    simp only [Option.bind_eq_some, Option.some.injEq, Prod.mk.injEq] at h
    obtain ⟨⟨m1, w2⟩, hm, ⟨ms1, w3⟩, hms, h2, -⟩ := h
    subst h2
    rw [OnlyRewritesList]
    exact ⟨m1, ms1, rfl, ihn w m1 w2 hm, ihns w2 ms1 w3 hms⟩

/-- The selector expressions `io.X` with `X` different from `ReadAll` are the
same nodes, in the same order, before and after a completed walk. -/
theorem walker_walk_otherIo (fs : FileSystem) :
    (∀ n, ∀ (w : Walker) (n1 : Node) (w1 : Walker),
      astWalk (Walker.Visit fs) w n = some (n1, w1) →
      (subnodes n1).filter isOtherIoSelector = (subnodes n).filter isOtherIoSelector) ∧
    (∀ ns, ∀ (w : Walker) (ns1 : List Node) (w1 : Walker),
      walkList (Walker.Visit fs) w ns = some (ns1, w1) →
      (subnodesList ns1).filter isOtherIoSelector =
        (subnodesList ns).filter isOtherIoSelector) := by
  apply Node.induct
  · intro id w n1 w1 h
    rw [walker_walk_ident] at h
    cases h
    rfl
  · intro x sel ih w n1 w1 h
    rw [walker_walk_selector] at h
    simp only [Option.bind_eq_some, Option.some.injEq, Prod.mk.injEq] at h
    obtain ⟨⟨x1, w2⟩, hx, h2, -⟩ := h
    subst h2
    have e := ih w x1 w2 hx
    have hk := walker_walk_kind fs w x x1 w2 hx
    by_cases hk0 : x.kind = 0
    · obtain ⟨id, rfl⟩ : ∃ id, x = .ident id := by
        cases x with
        | ident id => exact ⟨id, rfl⟩
        | selectorExpr _ _ => simp [Node.kind] at hk0
        | callExpr _ _ _ _ _ => simp [Node.kind] at hk0
        | other _ _ _ _ => simp [Node.kind] at hk0
      rw [walker_walk_ident] at hx
      cases hx
      rfl
    · have h1 : isOtherIoSelector (.selectorExpr x sel) = false := by
        cases x with
        | ident id => simp [Node.kind] at hk0
        | selectorExpr _ _ => rfl
        | callExpr _ _ _ _ _ => rfl
        | other _ _ _ _ => rfl
      have h2 : isOtherIoSelector (.selectorExpr x1 sel) = false := by
        rw [← hk] at hk0
        cases x1 with
        | ident id => simp [Node.kind] at hk0
        | selectorExpr _ _ => rfl
        | callExpr _ _ _ _ _ => rfl
        | other _ _ _ _ => rfl
      simp only [subnodes, List.filter_cons, List.filter_append, h1, h2, Bool.false_eq_true,
        if_false, e]
  · intro f lp args el rp ihf iha w n1 w1 h
    cases hm : isReadAllCall "io" (.callExpr f lp args el rp) with
    | false =>
      rw [walker_walk_call_noMatch fs w f lp args el rp hm] at h
      simp only [Option.bind_eq_some, Option.some.injEq, Prod.mk.injEq] at h
      obtain ⟨⟨f1, w2⟩, hf, ⟨a1, w3⟩, ha, h2, -⟩ := h
      subst h2
      simp only [subnodes, List.filter_cons, List.filter_append, isOtherIoSelector,
        Bool.false_eq_true, if_false]
      rw [ihf w f1 w2 hf, iha w2 a1 w3 ha]
    | true =>
      obtain ⟨x, sel, rfl, hx, hs⟩ := isReadAllCall_shape _ _ _ _ _ _ hm
      rw [walker_walk_call_match fs w x sel lp args el rp hx hs] at h
      simp only [Option.bind_eq_some, Option.some.injEq, Prod.mk.injEq] at h
      obtain ⟨p, -, h2, -⟩ := h
      subst h2
      have hl : ∀ a b : List Node, subnodesList (a ++ b) = subnodesList a ++ subnodesList b := by
        intro a b
        induction a with
        | nil => rfl
        | cons n ns ih => simp [subnodesList, ih]
      simp [subnodes, subnodesList, hl, List.filter_cons, List.filter_append,
        isOtherIoSelector, hs]
  · intro tag p e cs ih w n1 w1 h
    rw [walker_walk_other] at h
    simp only [Option.bind_eq_some, Option.some.injEq, Prod.mk.injEq] at h
    obtain ⟨⟨c1, w2⟩, hc, h2, -⟩ := h
    subst h2
    simp only [subnodes, List.filter_cons, isOtherIoSelector, Bool.false_eq_true, if_false]
    exact ih w c1 w2 hc
  · intro w ns1 w1 h
    simp only [walkList, Option.some.injEq, Prod.mk.injEq] at h
    obtain ⟨rfl, -⟩ := h
    rfl
  · intro n ns ihn ihns w ns1 w1 h
    rw [walker_walkList_cons] at h
    simp only [Option.bind_eq_some, Option.some.injEq, Prod.mk.injEq] at h
    obtain ⟨⟨m1, w2⟩, hm, ⟨ms1, w3⟩, hms, h2, -⟩ := h
    subst h2
    simp only [subnodesList, List.filter_append]
    rw [ihn w m1 w2 hm, ihns w2 ms1 w3 hms]

/-- The answer of the usage check is the same on the tree before and after a
completed walk. -/
theorem walker_walk_hasOtherIo (fs : FileSystem) (w w1 : Walker) (t t1 : Node)
    (h : astWalk (Walker.Visit fs) w t = some (t1, w1)) : hasOtherIo t1 = hasOtherIo t := by
  have e := (walker_walk_otherIo fs).1 t w t1 w1 h
  have key : ∀ n : Node, hasOtherIo n = true ↔ (subnodes n).filter isOtherIoSelector ≠ [] := by
    intro n
    rw [hasOtherIo_iff.1 n, Ne, List.filter_eq_nil_iff]
    constructor
    · rintro ⟨m, hm, hp⟩ hall
      exact hall m hm hp
    · intro hall
      by_contra hne
      exact hall (fun m hm hp => hne ⟨m, hm, hp⟩)
  rw [Bool.eq_iff_iff, key t1, key t, e]

/-! ## C12 -/

/-- C12: a completed walk changes nothing but the qualifier identifier and the
argument list of the calls `io.ReadAll(...)` it rewrites: every other node keeps
its fields (`OnlyRewrites`), and the selector expressions `io.X` with `X`
different from `ReadAll` are the same nodes before and after. -/
theorem C12_only_target_call_rewritten (fs : FileSystem) (w w1 : Walker) (t t1 : Node)
    (hwalk : astWalk (Walker.Visit fs) w t = some (t1, w1)) :
    OnlyRewrites t t1 ∧
    (subnodes t1).filter isOtherIoSelector = (subnodes t).filter isOtherIoSelector :=
  ⟨(walker_walk_onlyRewrites fs).1 t w t1 w1 hwalk, (walker_walk_otherIo fs).1 t w t1 w1 hwalk⟩

/-- C12 witness: in `x := io.EOF; io.ReadAll(r); f(x)` only the call
`io.ReadAll(r)` is rewritten. -/
theorem C12_only_target_call_rewritten_witness :
    OnlyRewrites exMixed exMixedAfter ∧
    (subnodes exMixedAfter).filter isOtherIoSelector =
      (subnodes exMixed).filter isOtherIoSelector :=
  C12_only_target_call_rewritten exNoFs exWalker { exWalker with hasReadAll := true }
    exMixed exMixedAfter (by rfl)

/-! ## C14 -/

/-- C14, as stated, fails: there is no tree on which `IoUsageChecker` reports one
value of `UsesOtherIo` before the `Walker` pass and another one after it. -/
theorem C14_no_tree_is_order_dependent :
    ¬ ∃ (fs : FileSystem) (w w1 : Walker) (t t1 : Node) (s s1 : IoUsageChecker),
      astWalk (Walker.Visit fs) w t = some (t1, w1) ∧
      astWalk IoUsageChecker.Visit { UsesOtherIo := false } t = some (t, s) ∧
      astWalk IoUsageChecker.Visit { UsesOtherIo := false } t1 = some (t1, s1) ∧
      s1.UsesOtherIo ≠ s.UsesOtherIo := by
  rintro ⟨fs, w, w1, t, t1, s, s1, hw, hs, hs1, hne⟩
  rw [ioChecker_walk.1 t] at hs
  rw [ioChecker_walk.1 t1] at hs1
  simp only [Bool.false_or, Option.some.injEq, Prod.mk.injEq, true_and] at hs hs1
  subst hs hs1
  exact hne (walker_walk_hasOtherIo fs w w1 t t1 hw)

/-- C14 (amended): the usage analysis does not depend on the order. For every
tree, `IoUsageChecker` run on the tree after a completed `Walker` pass reports
the same `UsesOtherIo` as on the original tree: the pass renames qualifiers of
`io.ReadAll` only, which the checker never counts. -/
theorem C14_usage_check_is_order_independent (fs : FileSystem) (w w1 : Walker) (t t1 : Node)
    (hwalk : astWalk (Walker.Visit fs) w t = some (t1, w1)) :
    ∃ s : IoUsageChecker,
      astWalk IoUsageChecker.Visit { UsesOtherIo := false } t = some (t, s) ∧
      astWalk IoUsageChecker.Visit { UsesOtherIo := false } t1 = some (t1, s) := by
  refine ⟨{ UsesOtherIo := false || hasOtherIo t }, ioChecker_walk.1 t _, ?_⟩
  rw [ioChecker_walk.1 t1, walker_walk_hasOtherIo fs w w1 t t1 hwalk]

/-- C14 witness: `x := io.EOF; io.ReadAll(r); f(x)` before and after the pass. -/
theorem C14_usage_check_is_order_independent_witness :
    ∃ s : IoUsageChecker,
      astWalk IoUsageChecker.Visit { UsesOtherIo := false } exMixed = some (exMixed, s) ∧
      astWalk IoUsageChecker.Visit { UsesOtherIo := false } exMixedAfter =
        some (exMixedAfter, s) :=
  C14_usage_check_is_order_independent exNoFs exWalker { exWalker with hasReadAll := true }
    exMixed exMixedAfter (by rfl)

/-! ## C13 -/

/-- C13 fails on the code: for `io.ReadAll(f(io.ReadAll(r)))` and for
`g := io.ReadAll; io.ReadAll(r)` the pipeline rewrites a call (`hasReadAll` is
true), finds no other member of `io` (`UsesOtherIo` is false) and deletes the
`io` import, and the printed tree still holds a selector expression with
qualifier `io`. -/
theorem C13_dangling_io_reference :
    (rewriteFile exNestedFs exFset "a.go" exNestedFile).bind Outcome.ioSummary =
      some ([io2Spec], true, false, true) ∧
    (rewriteFile exNoFs exFset "a.go" exValueFile).bind Outcome.ioSummary =
      some ([io2Spec], true, false, true) := by
  decide

/-! ## C15 -/

/-- C15 fails on the code: the entry `x_test.go.go` is not a directory, its name
ends with `.go` and does not end with `_test.go`, and `isGoFile` returns false,
because it tests whether the name contains `_test.go`. On `main.go`,
`main_test.go`, a directory and `main.c` the function answers as the claim says. -/
theorem C15_isGoFile_rejects_inner_test_suffix :
    isGoFile { Name := "x_test.go.go", IsDir := false } = false ∧
    stringsHasSuffix "x_test.go.go" ".go" = true ∧
    stringsHasSuffix "x_test.go.go" "_test.go" = false ∧
    isGoFile { Name := "main.go", IsDir := false } = true ∧
    isGoFile { Name := "main_test.go", IsDir := false } = false ∧
    isGoFile { Name := "main.go", IsDir := true } = false ∧
    isGoFile { Name := "main.c", IsDir := false } = false := by
  decide

/-! ## C16 -/

/-- The function getStringVersion panics exactly when the slice expression is
out of range: the start is before the first byte, the end before the start, or
the end beyond the capacity of the slice. -/
theorem getStringVersion_eq_none_iff (n : Node) (src : ByteSlice) (fset : FileSet) :
    getStringVersion n src fset = none ↔
      n.Pos < 1 ∨ n.End < n.Pos ∨ src.cap + 1 < n.End := by
  unfold getStringVersion ByteSlice.slice
  by_cases h : 0 ≤ n.Pos - 1 ∧ n.Pos - 1 ≤ n.End - 1 ∧ n.End - 1 ≤ src.cap
  · simp only [h, and_self, if_true]
    constructor
    · intro hn
      cases hn
    · intro hn
      omega
  · simp only [h, if_false, true_iff]
    omega

/-- C16, as stated, fails in its last part: the source read back has 3 bytes,
fewer than the 13 bytes the call `io.ReadAll(r)` ends after, and the slice
expression is in range all the same, since its upper bound is checked against
the capacity 512 of the slice: `getStringVersion` returns a text. -/
theorem C16_shorter_src_counterexample :
    exShortSrc.len = 3 ∧ (exCall 1 none "r").End - 1 = 13 ∧ exShortSrc.cap = 512 ∧
    (getStringVersion (exCall 1 none "r") exShortSrc exFset).isSome = true := by
  have hlen : exShortSrc.len = 3 := rfl
  have hend : (exCall 1 none "r").End - 1 = 13 := by decide
  have hpos : (exCall 1 none "r").Pos = 1 := rfl
  have hcap : exShortSrc.cap = 512 := by
    show (("io.".data.length : Nat) : Int) +
      ((List.replicate 509 (Char.ofNat 0)).length : Nat) = 512
    rw [List.length_replicate]
    rfl
  refine ⟨hlen, hend, hcap, ?_⟩
  rw [← Option.ne_none_iff_isSome, Ne, getStringVersion_eq_none_iff, hcap, hpos]
  omega

/-- A token that stands in the source lies within its bytes. -/
theorem tokenAt_bounds (src : ByteSlice) (pos : Int) (tok : List Char)
    (h : tokenAt src pos tok = true) : 1 ≤ pos ∧ pos - 1 + tok.length ≤ src.len := by
  simp only [tokenAt, Bool.and_eq_true, decide_eq_true_eq] at h
  exact h.1

/-- The span of a node with the positions of go/parser lies within the file:
`1 <= Pos <= End <= len(src)+1`. -/
theorem parsedFrom_span (src : ByteSlice) :
    (∀ n, parsedFrom src n = true → 1 ≤ n.Pos ∧ n.Pos ≤ n.End ∧ n.End ≤ src.len + 1) ∧
    (∀ _ns : List Node, True) := by
  apply Node.induct
  · intro id h
    have hb := tokenAt_bounds src id.NamePos id.Name.data (by simpa [parsedFrom] using h)
    show 1 ≤ id.NamePos ∧ id.NamePos ≤ id.NamePos + ((id.Name.data.length : Nat) : Int) ∧
      id.NamePos + ((id.Name.data.length : Nat) : Int) ≤ src.len + 1
    omega
  · intro x sel ih h
    simp only [parsedFrom, Bool.and_eq_true, decide_eq_true_eq] at h
    obtain ⟨⟨hx, hsel⟩, hlt⟩ := h
    have hb := tokenAt_bounds src sel.NamePos sel.Name.data hsel
    have hxs := ih hx
    show 1 ≤ x.Pos ∧ x.Pos ≤ sel.NamePos + ((sel.Name.data.length : Nat) : Int) ∧
      sel.NamePos + ((sel.Name.data.length : Nat) : Int) ≤ src.len + 1
    omega
  · intro f lp args el rp ihf _ h
    simp only [parsedFrom, Bool.and_eq_true, decide_eq_true_eq] at h
    obtain ⟨⟨⟨⟨⟨⟨hf, -⟩, -⟩, hrp⟩, hfl⟩, hlr⟩, -⟩ := h
    have hb := tokenAt_bounds src rp [')'] hrp
    have hfs := ihf hf
    simp only [List.length_singleton, Nat.cast_one] at hb
    show 1 ≤ f.Pos ∧ f.Pos ≤ rp + 1 ∧ rp + 1 ≤ src.len + 1
    omega
  · intro tag p e cs _ h
    simp only [parsedFrom, Bool.and_eq_true, decide_eq_true_eq] at h
    simpa [Node.Pos, Node.End] using h.1
  · trivial
  · intro n ns _ _
    trivial

/-- Every node of a tree with the positions of go/parser has them too. -/
theorem parsedFrom_subnodes (src : ByteSlice) :
    (∀ n, parsedFrom src n = true → ∀ m ∈ subnodes n, parsedFrom src m = true) ∧
    (∀ ns, parsedFromList src ns = true → ∀ m ∈ subnodesList ns, parsedFrom src m = true) := by
  apply Node.induct
  · intro id h m hm
    simp only [subnodes, List.mem_singleton] at hm
    subst hm
    exact h
  · intro x sel ih h m hm
    simp only [subnodes, List.mem_cons, List.mem_append, List.not_mem_nil, or_false] at hm
    rcases hm with rfl | hm | rfl
    · exact h
    · simp only [parsedFrom, Bool.and_eq_true, decide_eq_true_eq] at h
      exact ih h.1.1 m hm
    · simp only [parsedFrom, Bool.and_eq_true, decide_eq_true_eq] at h
      simpa [parsedFrom] using h.1.2
  · intro f lp args el rp ihf iha h m hm
    simp only [subnodes, List.mem_cons, List.mem_append] at hm
    rcases hm with rfl | hm | hm
    · exact h
    · simp only [parsedFrom, Bool.and_eq_true, decide_eq_true_eq] at h
      exact ihf h.1.1.1.1.1.1 m hm
    · simp only [parsedFrom, Bool.and_eq_true, decide_eq_true_eq] at h
      exact iha h.1.1.1.1.1.2 m hm
  · intro tag p e cs ih h m hm
    simp only [subnodes, List.mem_cons] at hm
    rcases hm with rfl | hm
    · exact h
    · simp only [parsedFrom, Bool.and_eq_true, decide_eq_true_eq] at h
      exact ih h.2 m hm
  · intro _ m hm
    simp [subnodesList] at hm
  · intro n ns ihn ihns h m hm
    simp only [parsedFromList, Bool.and_eq_true] at h
    simp only [subnodesList, List.mem_append] at hm
    rcases hm with hm | hm
    · exact ihn h.1 m hm
    · exact ihns h.2 m hm

/-- C16 (amended): every node `n` of a tree parsed from the bytes `src` into a
fresh file set has `1 <= Pos <= End <= len(src)+1`, so the slice
`src[Pos-1 : End-1]` is in range and `getStringVersion` returns a text. With
other bytes `src2` read back it panics exactly when even the capacity of `src2`
is less than `End-1`. -/
theorem C16_slice_in_bounds (src : ByteSlice) (fset : FileSet) (t n : Node)
    (hparsed : parsedFrom src t = true) (hn : n ∈ subnodes t) :
    (1 ≤ n.Pos ∧ n.Pos ≤ n.End ∧ n.End ≤ src.len + 1) ∧
    (∃ text, src.slice (n.Pos - 1) (n.End - 1) = some text) ∧
    (∃ s, getStringVersion n src fset = some s) ∧
    (∀ src2 : ByteSlice, getStringVersion n src2 fset = none ↔ src2.cap + 1 < n.End) := by
  have hspan := (parsedFrom_span src).1 n ((parsedFrom_subnodes src).1 t hparsed n hn)
  obtain ⟨h1, h2, h3⟩ := hspan
  obtain ⟨text, hs, -, -⟩ :=
    slice_in_range src (n.Pos - 1) (n.End - 1) (by omega) (by omega) (by omega)
  have hg : getStringVersion n src fset =
      some ("\"" ++ ((fset.Position n.Pos).String ++ "NEW_LINE") ++ String.mk text ++ "\"") := by
    simp only [getStringVersion, hs]
  refine ⟨⟨h1, h2, h3⟩, ⟨text, hs⟩, ⟨_, hg⟩, ?_⟩
  intro src2
  rw [getStringVersion_eq_none_iff]
  constructor
  · rintro (h | h | h)
    · omega
    · omega
    · exact h
  · intro h
    exact Or.inr (Or.inr h)

/-- C16 witness: the first call of `io.ReadAll(r); io.ReadAll(s)`, a node of the
tree parsed from these bytes. -/
theorem C16_slice_in_bounds_witness :
    (1 ≤ (exCall 1 none "r").Pos ∧ (exCall 1 none "r").Pos ≤ (exCall 1 none "r").End ∧
      (exCall 1 none "r").End ≤ exTwoSrc.len + 1) ∧
    (∃ text, exTwoSrc.slice ((exCall 1 none "r").Pos - 1) ((exCall 1 none "r").End - 1) =
      some text) ∧
    (∃ s, getStringVersion (exCall 1 none "r") exTwoSrc exFset = some s) ∧
    (∀ src2 : ByteSlice, getStringVersion (exCall 1 none "r") src2 exFset = none ↔
      src2.cap + 1 < (exCall 1 none "r").End) :=
  C16_slice_in_bounds exTwoSrc exFset exTwo (exCall 1 none "r") (by decide)
    (List.Mem.tail _ (List.Mem.head _))

end Instrumentation
